import Mathlib

/-!
Verification of the secure-mcp-gateway core against its specification.

The definitions below are a shallow embedding of the gateway's source:

* the sqlite-backed credential store (`clients` table and its queries),
* the OAuth authorization provider (`mcp-auth-provider.ts`),
* the per-tenant downstream connector pool (`mcp-client.ts`, tenant-aware
  variant),
* the tool-call request handler of the streamable-HTTP route,
* the HMAC bootstrap token signer (`tokens.ts`).

Randomness (`crypto.randomBytes(...).toString("hex")`) is modelled by an
explicit supply `supply : Nat → String` together with a counter of how many
values have been drawn; collision-freeness of the random generator becomes
the hypothesis that the supply is injective.  Clock reads (`Date.now()`)
become an explicit `now : Nat` argument, and the configured TTL
(`envVars.TOKEN_EXPIRATION_TIME`) an explicit `ttl : Nat` argument.
-/

set_option maxRecDepth 100000

namespace SecureMcpGateway

/-! ## Credential store (sqlite `clients` table, services/db.ts) -/

/-- The `credentials` JSON column, as written by the auth provider. -/
structure Credentials where
  access_token : String
  token_type : String
  access_token_expired_at : Nat
  scope : String
  refresh_token : String
  deriving DecidableEq, Repr

/-- One row of the `clients` table.  `client` and `user` are opaque JSON
blobs for this development (registration metadata and the linked identity);
`code` / `code_challenge` / `user` / `credentials` are nullable columns. -/
structure ClientRow where
  client_id : String
  client : String
  code : Option String
  code_challenge : Option String
  user : Option String
  credentials : Option Credentials
  deriving DecidableEq, Repr

/-- The `clients` table: rows in insertion order.  `client_id` is the
primary key; queries below mirror the SQL statements of services/db.ts. -/
abbrev Db := List ClientRow

/-- SELECT * FROM clients WHERE client_id = ? (first matching row). -/
def getByClientId (db : Db) (client_id : String) : Option ClientRow :=
  db.find? (fun r => r.client_id == client_id)

/-- SELECT * FROM clients WHERE JSON_EXTRACT(credentials, access_token) = ?.
A row whose `credentials` column is NULL never matches. -/
def getByAccessToken (db : Db) (access_token : String) : Option ClientRow :=
  db.find? (fun r =>
    match r.credentials with
    | some c => c.access_token == access_token
    | none => false)

/-- SELECT * FROM clients WHERE client_id = ? AND code = ?.
A row whose `code` column is NULL never matches. -/
def getByCode (db : Db) (client_id code : String) : Option ClientRow :=
  db.find? (fun r => r.client_id == client_id && r.code == some code)

/-- SELECT * FROM clients WHERE JSON_EXTRACT(credentials, refresh_token) = ?. -/
def getByRefreshToken (db : Db) (refresh_token : String) : Option ClientRow :=
  db.find? (fun r =>
    match r.credentials with
    | some c => c.refresh_token == refresh_token
    | none => false)

/-- UPDATE clients SET code = ?, code_challenge = ? WHERE client_id = ?. -/
def updateCodes (db : Db) (client_id code code_challenge : String) : Db :=
  db.map (fun r =>
    if r.client_id == client_id then
      { r with code := some code, code_challenge := some code_challenge }
    else r)

/-- UPDATE clients SET user = ? WHERE client_id = ? AND code = ?. -/
def updateUser (db : Db) (client_id code user : String) : Db :=
  db.map (fun r =>
    if r.client_id == client_id && r.code == some code then
      { r with user := some user }
    else r)

/-- The row transformation of `updateCredentials`: replace the
`credentials` column wholesale on rows matching the client id. -/
def applyCredUpdate (client_id : String) (credentials : Credentials)
    (r : ClientRow) : ClientRow :=
  if r.client_id == client_id then { r with credentials := some credentials }
  else r

/-- UPDATE clients SET credentials = ? WHERE client_id = ?. -/
def updateCredentials (db : Db) (client_id : String) (credentials : Credentials) : Db :=
  db.map (applyCredUpdate client_id credentials)

/-- INSERT INTO clients (client_id, client) VALUES (?, ?).  The primary-key
constraint makes a duplicate insert fail, modelled as `none`. -/
def createClient (db : Db) (client_id client : String) : Option Db :=
  if (getByClientId db client_id).isSome then none
  else some (db ++ [{ client_id := client_id, client := client, code := none,
                      code_challenge := none, user := none, credentials := none }])

/-! ## OAuth authorization provider (services/mcp-auth-provider.ts) -/

/-- Provider state: the clients table plus the count of random token values
drawn so far.  Every `crypto.randomBytes(32).toString("hex")` call draws the
next value of an ambient supply `supply : Nat → String`. -/
structure AuthSys where
  db : Db
  cnt : Nat
  deriving DecidableEq, Repr

/-- Draw the next random token value from the supply. -/
def mintToken (supply : Nat → String) (sys : AuthSys) : String × AuthSys :=
  (supply sys.cnt, { sys with cnt := sys.cnt + 1 })

/-- The value returned by `verifyAccessToken`. -/
structure AuthInfo where
  token : String
  clientId : String
  scopes : List String
  expiresAt : Nat
  deriving DecidableEq, Repr

/-- verifyAccessToken: look the token up; throw Unauthorized when it is not
stored; otherwise return token, client id, the fixed scopes, and the stored
expiry.  The source performs no expiry comparison here; the non-null
assertion on `credentials` is total because the row was found through
`JSON_EXTRACT(credentials, access_token)` (a NULL column never matches),
and is modelled by a default for the unreachable branch. -/
def verifyAccessToken (db : Db) (token : String) : Except String AuthInfo :=
  match getByAccessToken db token with
  | none => Except.error "Unauthorized"
  | some client =>
    Except.ok { token := token, clientId := client.client_id,
                scopes := ["openid", "email", "profile"],
                expiresAt := ((client.credentials.map
                  (fun c => c.access_token_expired_at)).getD 0) }

/-- exchangeAuthorizationCode: requires the `(clientId, code)` row to exist
and to carry a linked identity; then mints a refresh token and an access
token (in that order, as in the source), builds the credentials tuple with
expiry `now + ttl`, persists it wholesale for the calling client id, and
returns it.  `codeVerifier` and `redirectUri` are accepted and ignored by
the source (`skipLocalPkceValidation` is set). -/
def exchangeAuthorizationCode (supply : Nat → String) (sys : AuthSys)
    (clientId authorizationCode : String)
    (codeVerifier redirectUri : Option String) (now ttl : Nat) :
    Except String (Credentials × AuthSys) :=
  match getByCode sys.db clientId authorizationCode with
  | none => Except.error "Unauthorized: Invalid authorization code"
  | some client =>
    match client.user with
    | none => Except.error "Unauthorized: User not found"
    | some _ =>
      let r1 := mintToken supply sys
      let r2 := mintToken supply r1.2
      let credentials : Credentials :=
        { access_token := r2.1, token_type := "Bearer",
          access_token_expired_at := now + ttl,
          scope := "openid email profile", refresh_token := r1.1 }
      Except.ok (credentials,
        { r2.2 with db := updateCredentials r2.2.db clientId credentials })

/-- The tuple returned by `exchangeRefreshToken` (shape of the source's
return object: `expires_in` rather than an absolute expiry). -/
structure RefreshResponse where
  access_token : String
  token_type : String
  expires_in : Nat
  scope : String
  refresh_token : String
  deriving DecidableEq, Repr

/-- The scope string of a refresh response: `scopes?.join(" ") ||
"openid email profile"` — `undefined` and the empty join both fall back to
the fixed default set. -/
def scopeOrDefault (scopes : Option (List String)) : String :=
  match scopes with
  | none => "openid email profile"
  | some l =>
    let j := String.intercalate " " l
    if j == "" then "openid email profile" else j

/-- Placeholder for the unreachable `client.credentials!` non-null
assertion: a row found through `JSON_EXTRACT(credentials, refresh_token)`
always carries credentials. -/
def emptyCredentials : Credentials :=
  { access_token := "", token_type := "", access_token_expired_at := 0,
    scope := "", refresh_token := "" }

/-- exchangeRefreshToken: look the refresh token up (by the token alone —
the presenting client `oauthClientId` is used only for logging in the
source and never read); throw Unauthorized when unknown; otherwise mint a
fresh access token, persist the stored credentials with only
`access_token` and `access_token_expired_at` replaced (the refresh token is
reused, never rotated) under the *found* row's client id, and return the
response tuple echoing the presented refresh token. -/
def exchangeRefreshToken (supply : Nat → String) (sys : AuthSys)
    (oauthClientId refreshToken : String) (scopes : Option (List String))
    (now ttl : Nat) : Except String (RefreshResponse × AuthSys) :=
  match getByRefreshToken sys.db refreshToken with
  | none => Except.error "Unauthorized: Invalid refresh token"
  | some client =>
    let r1 := mintToken supply sys
    let stored := client.credentials.getD emptyCredentials
    let newCreds : Credentials :=
      { stored with access_token := r1.1, access_token_expired_at := now + ttl }
    Except.ok
      ({ access_token := r1.1, token_type := "Bearer", expires_in := ttl,
         scope := scopeOrDefault scopes, refresh_token := refreshToken },
       { r1.2 with db := updateCredentials r1.2.db client.client_id newCreds })

/-! ## Direct tool-call endpoint guard (POST /call/:integrationSlug/:toolSlug) -/

/-- Outcome of the bearer check performed by the direct tool-call route. -/
inductive CallAuthOutcome
  | unauthorized
  | proceed
  deriving DecidableEq, Repr

/-- The route's own credential check: 401 when the token is not stored or
when the stored `access_token_expired_at` lies strictly in the past. -/
def directCallAuth (db : Db) (token : String) (now : Nat) : CallAuthOutcome :=
  match getByAccessToken db token with
  | none => CallAuthOutcome.unauthorized
  | some client =>
    if ((client.credentials.map (fun c => c.access_token_expired_at)).getD 0) < now then
      CallAuthOutcome.unauthorized
    else CallAuthOutcome.proceed

/-! ## Downstream connector pool: tool lookup (mcp-client.ts, tenant-aware
variant) -/

deriving instance DecidableEq for Except

/-- A connected downstream client as observed by the pool: its server name
and the outcome of `client.listTools()` — either the listed tool names or
a thrown error. -/
structure McpConn where
  name : String
  listing : Except String (List String)
  deriving DecidableEq, Repr

/-- Whether a connection's tool listing succeeds and contains the tool:
`tools.some((tool) => tool.name === toolName)` under the per-client
try/catch. -/
def exposesTool (c : McpConn) (toolName : String) : Bool :=
  match c.listing with
  | Except.ok tools => tools.contains toolName
  | Except.error _ => false

/-- findMcpClientByToolName: iterate the tenant's connections in order,
query each listing, skip (and log) a connection whose listing throws, and
return the first whose tool set contains `toolName`; `null` when none
does. -/
def findMcpClientByToolName (clients : List McpConn) (toolName : String) :
    Option McpConn :=
  clients.find? (fun c => exposesTool c toolName)

/-! ## Tool-call request handler (routes/mcp.ts, CallToolRequestSchema) -/

/-- A JavaScript Promise as seen by code that forgot to await it: an object
wrapping the eventual value.  Like every object, it is truthy. -/
structure JsPromise (α : Type) where
  eventual : α

/-- JavaScript truthiness of an object value: always `true`. -/
def jsTruthy {α : Type} (_p : JsPromise α) : Bool := true

/-- What the CallTool request handler produces, as seen by the protocol
layer. -/
inductive CallToolOutcome
  | errorObject (code : Int) (message : String)
  | result (payload : String)
  | thrown (message : String)
  deriving DecidableEq, Repr

/-- The CallTool handler as written: `const client =
findMcpClientByToolName(request.params.name)` is *not* awaited, so
`client` is the pending Promise object; `if (!client)` is then always
false (a Promise is truthy) and the not-found branch is unreachable, and
`client.callTool(...)` throws a TypeError because a Promise has no
`callTool` method.  The downstream `call` behaviour therefore never
matters. -/
def callToolHandler (clients : List McpConn)
    (call : McpConn → Except String String) (toolName : String) :
    CallToolOutcome :=
  let client : JsPromise (Option McpConn) :=
    ⟨findMcpClientByToolName clients toolName⟩
  if jsTruthy client = false then
    CallToolOutcome.errorObject (-32000) "Tool not found"
  else
    CallToolOutcome.thrown "TypeError: client.callTool is not a function"

/-- The handler as evidently intended (with the missing `await` added):
return the not-found error object when no connection exposes the tool,
otherwise forward the downstream call.  Note that even here a downstream
failure propagates as a thrown error — the handler has no try/catch
around `client.callTool`. -/
def callToolHandlerAwaited (clients : List McpConn)
    (call : McpConn → Except String String) (toolName : String) :
    CallToolOutcome :=
  match findMcpClientByToolName clients toolName with
  | none => CallToolOutcome.errorObject (-32000) "Tool not found"
  | some c =>
    match call c with
    | Except.ok payload => CallToolOutcome.result payload
    | Except.error e => CallToolOutcome.thrown e

/-! ## Per-tenant connection provisioning (mcp-client.ts,
ensureMcpClientsForToken) -/

/-- The phase of one caller of `ensureMcpClientsForToken(accessToken)`.
`start`: about to run the function's synchronous prefix (the
`mcpClientsByToken[accessToken]` guard, and on a miss the reservation
`mcpClientsByToken[accessToken] = {}` plus kicking off the per-server
loads).  `loading pending`: this caller passed the guard and its
per-server load promises for `pending` have not yet resolved.
`returned sawCreated`: the caller's promise resolved; `sawCreated` is the
set of connections that existed for the tenant at that moment. -/
inductive TaskPhase
  | start
  | loading (pending : List String)
  | returned (sawCreated : List String)
  deriving DecidableEq, Repr

/-- Whether a caller's promise has resolved. -/
def TaskPhase.isReturned : TaskPhase → Bool
  | TaskPhase.returned _ => true
  | _ => false

/-- Global state of the pool for one tenant key: the configured server
names, whether `mcpClientsByToken` has an entry for the key, the
connections created so far, and the phases of the concurrent callers. -/
structure PoolState where
  config : List String
  entry : Bool
  created : List String
  tasks : List TaskPhase
  deriving DecidableEq, Repr

/-- One scheduler step: run the next atomic segment of caller `i`.  The
guard and the reservation are a single synchronous segment — JavaScript
cannot interleave between `if (mcpClientsByToken[accessToken]) return`
and `mcpClientsByToken[accessToken] = {}` — while each per-server
connection is created at a later, separately scheduled moment. -/
def stepPool (s : PoolState) (i : Nat) : PoolState :=
  match s.tasks[i]? with
  | none => s
  | some TaskPhase.start =>
    if s.entry then
      { s with tasks := s.tasks.set i (TaskPhase.returned s.created) }
    else
      { s with entry := true,
               tasks := s.tasks.set i (TaskPhase.loading s.config) }
  | some (TaskPhase.loading []) =>
    { s with tasks := s.tasks.set i (TaskPhase.returned s.created) }
  | some (TaskPhase.loading (srv :: rest)) =>
    { s with created := s.created ++ [srv],
             tasks := s.tasks.set i (TaskPhase.loading rest) }
  | some (TaskPhase.returned _) => s

/-- Run a whole schedule of interleaved steps. -/
def runPool (s : PoolState) : List Nat → PoolState
  | [] => s
  | i :: sched => runPool (stepPool s i) sched

/-- `n` concurrent first-time callers for a tenant key with no existing
entry. -/
def initPool (config : List String) (n : Nat) : PoolState :=
  { config := config, entry := false, created := [],
    tasks := List.replicate n TaskPhase.start }

/-- The inductive invariant of the provisioning state machine. -/
def PoolInv (s : PoolState) : Prop :=
  (∀ p, TaskPhase.loading p ∈ s.tasks →
    s.entry = true ∧ s.created ++ p = s.config) ∧
  (∀ (i j : Nat) (p q : List String),
    s.tasks[i]? = some (TaskPhase.loading p) →
    s.tasks[j]? = some (TaskPhase.loading q) → i = j) ∧
  (s.entry = false → s.created = []) ∧
  (s.entry = true →
    (∃ p, TaskPhase.loading p ∈ s.tasks) ∨ s.created = s.config) ∧
  ((∀ t ∈ s.tasks, t = TaskPhase.start) ∨ s.entry = true)

/-! ## Bootstrap token signer (libs/tokens.ts)

Strings are modelled as `List Char` over ASCII; the HMAC
(`createHmac("sha256", AUTH_SECRET)` + digest in base64url) is an opaque
keyed function `hmac : List Char → List Char`, passed as a parameter.  The
pipeline of `signTokens` is modelled ingredient by ingredient:
`JSON.stringify` of the three-field object, `Buffer.from(...)` (UTF-8
bytes; the development works in the ASCII range, where a byte is the
character code), `toString("base64")` (standard alphabet with padding),
and `encodeURIComponent`.  `verifyToken` decodes with Node's lenient
base64 decoder (non-alphabet characters are ignored, decoding stops at a
padding character, a trailing partial quantum of one character is
dropped), UTF-8-decodes, and `JSON.parse`s — for the object shape the
signer emits: a brace-delimited object of exactly three string-valued
members with JSON whitespace and string escapes, rejecting anything else
as a format error. -/

/-- Lowercase hex digit byte, as `JSON.stringify` uses in `\\u00xx`
escapes. -/
def hexByteLower (n : Nat) : Nat :=
  if n < 10 then 48 + n else 87 + n

/-- Uppercase hex digit, as `encodeURIComponent` uses in `%XX` escapes. -/
def hexDigitUpper (n : Nat) : Char :=
  if n < 10 then Char.ofNat (48 + n) else Char.ofNat (55 + n)

/-- The value of a hex digit character, if any. -/
def hexVal (c : Char) : Option Nat :=
  if 48 ≤ c.toNat ∧ c.toNat ≤ 57 then some (c.toNat - 48)
  else if 65 ≤ c.toNat ∧ c.toNat ≤ 70 then some (c.toNat - 65 + 10)
  else if 97 ≤ c.toNat ∧ c.toNat ≤ 102 then some (c.toNat - 97 + 10)
  else none

/-- The value of a hex digit byte, if any. -/
def hexValB (b : Nat) : Option Nat :=
  if 48 ≤ b ∧ b ≤ 57 then some (b - 48)
  else if 65 ≤ b ∧ b ≤ 70 then some (b - 65 + 10)
  else if 97 ≤ b ∧ b ≤ 102 then some (b - 97 + 10)
  else none

/-- How `JSON.stringify` renders one character (here: its UTF-8 byte, the
development works in the ASCII range) inside a string literal: quote (34)
and backslash (92) are escaped, control characters get their short or
`\\u00xx` escapes, everything else is emitted as itself. -/
def jsonEscapeByte (b : Nat) : List Nat :=
  if b = 34 then [92, 34]
  else if b = 92 then [92, 92]
  else if b = 8 then [92, 98]
  else if b = 9 then [92, 116]
  else if b = 10 then [92, 110]
  else if b = 12 then [92, 102]
  else if b = 13 then [92, 114]
  else if b < 32 then
    [92, 117, 48, 48, hexByteLower (b / 16), hexByteLower (b % 16)]
  else [b]

/-- `JSON.stringify` string-content rendering over bytes. -/
def jsonEscapeBytes : List Nat → List Nat
  | [] => []
  | b :: rest => jsonEscapeByte b ++ jsonEscapeBytes rest

/-- The literal key `userAccessKey`, as bytes. -/
def keyUAKb : List Nat := "userAccessKey".toList.map Char.toNat

/-- The literal key `token`, as bytes. -/
def keyTokB : List Nat := "token".toList.map Char.toNat

/-- The literal key `signature`, as bytes. -/
def keySigB : List Nat := "signature".toList.map Char.toNat

/-- `Buffer.from(JSON.stringify({ userAccessKey, token, signature }))`:
the UTF-8 bytes of the canonical compact rendering (34 is the quote, 58
the colon, 44 the comma, 123/125 the braces), written in the nested shape
that mirrors how a parser consumes it — the flat byte sequence is the
usual one, see `jsonStringifyBytes_spec`. -/
def jsonStringifyBytes (u t sig : List Char) : List Nat :=
  123 :: 34 ::
    (keyUAKb ++ 34 :: 58 :: 34 ::
      (jsonEscapeBytes (u.map Char.toNat) ++ 34 :: 44 :: 34 ::
        (keyTokB ++ 34 :: 58 :: 34 ::
          (jsonEscapeBytes (t.map Char.toNat) ++ 34 :: 44 :: 34 ::
            (keySigB ++ 34 :: 58 :: 34 ::
              (jsonEscapeBytes (sig.map Char.toNat) ++ [34, 125]))))))

/-- JSON whitespace bytes: space, tab, newline, carriage return. -/
def isWsB (b : Nat) : Bool :=
  b == 32 || b == 9 || b == 10 || b == 13

/-- Drop leading JSON whitespace. -/
def skipWsB : List Nat → List Nat
  | [] => []
  | b :: rest => if isWsB b then skipWsB rest else b :: rest

/-- The character code produced by a short JSON escape. -/
def unescapeByte (e : Nat) : Option Nat :=
  if e = 34 then some 34
  else if e = 92 then some 92
  else if e = 47 then some 47
  else if e = 98 then some 8
  else if e = 102 then some 12
  else if e = 110 then some 10
  else if e = 114 then some 13
  else if e = 116 then some 9
  else none

/-- Parse the body of a JSON string after its opening quote: unescape
until the closing quote, rejecting raw control characters and malformed
escapes, returning the content (as character codes) and the remaining
input. -/
def parseStringBodyB : List Nat → Option (List Nat × List Nat)
  | [] => none
  | b :: rest =>
    if b = 34 then some ([], rest)
    else if b = 92 then
      match rest with
      | [] => none
      | e :: rest2 =>
        if e = 117 then
          match rest2 with
          | h1 :: h2 :: h3 :: h4 :: rest3 =>
            match hexValB h1, hexValB h2, hexValB h3, hexValB h4 with
            | some a, some b2, some c4, some d =>
              match parseStringBodyB rest3 with
              | none => none
              | some (sl, r) =>
                some ((a * 4096 + b2 * 256 + c4 * 16 + d) :: sl, r)
            | _, _, _, _ => none
          | _ => none
        else
          match unescapeByte e with
          | none => none
          | some ec =>
            match parseStringBodyB rest2 with
            | none => none
            | some (sl, r) => some (ec :: sl, r)
    else if b < 32 then none
    else
      match parseStringBodyB rest with
      | none => none
      | some (sl, r) => some (b :: sl, r)

/-- Parse a JSON string literal including its opening quote (34). -/
def parseJStringB (s : List Nat) : Option (List Nat × List Nat) :=
  match s with
  | [] => none
  | x :: rest => if x = 34 then parseStringBodyB rest else none

/-- Consume one expected byte. -/
def expectByte (b : Nat) : List Nat → Option (List Nat)
  | [] => none
  | x :: rest => if x = b then some rest else none

/-- Parse one `"key" : "value"` member with surrounding whitespace. -/
def parseMemberB (s : List Nat) :
    Option ((List Nat × List Nat) × List Nat) :=
  match parseJStringB (skipWsB s) with
  | none => none
  | some (key, r1) =>
    match expectByte 58 (skipWsB r1) with
    | none => none
    | some r2 =>
      match parseJStringB (skipWsB r2) with
      | none => none
      | some (v, r3) => some ((key, v), r3)

/-- `JSON.parse` for the shape the signer emits: an object of exactly
three string-valued members, with nothing but whitespace after the
closing brace. -/
def jsonParse3B (s : List Nat) :
    Option (List (List Nat × List Nat)) :=
  match expectByte 123 (skipWsB s) with
  | none => none
  | some r0 =>
    match parseMemberB r0 with
    | none => none
    | some (kv1, r1) =>
      match expectByte 44 (skipWsB r1) with
      | none => none
      | some r2 =>
        match parseMemberB r2 with
        | none => none
        | some (kv2, r3) =>
          match expectByte 44 (skipWsB r3) with
          | none => none
          | some r4 =>
            match parseMemberB r4 with
            | none => none
            | some (kv3, r5) =>
              match expectByte 125 (skipWsB r5) with
              | none => none
              | some r6 =>
                match skipWsB r6 with
                | [] => some [kv1, kv2, kv3]
                | _ => none

/-- The last binding of a key, mirroring JavaScript's last-wins object
semantics. -/
def lookupLastB (fields : List (List Nat × List Nat)) (key : List Nat) :
    Option (List Nat) :=
  (fields.reverse.find? (fun kv => kv.1 == key)).map (fun kv => kv.2)

/-- The payload `verifyToken` works with.  A missing member reads as
JavaScript `undefined`: interpolated into the HMAC input as the text
`undefined` for the two name fields, and modelled as `none` for the
signature (an `undefined` signature never equals the recomputed one). -/
structure TokenPayload where
  userAccessKey : List Char
  token : List Char
  signature : Option (List Char)
  deriving DecidableEq, Repr

/-- The bytes of the text `undefined`. -/
def undefinedB : List Nat := "undefined".toList.map Char.toNat

/-- Extract the payload from decoded JSON bytes. -/
def jsonParsePayload (s : List Nat) : Option TokenPayload :=
  match jsonParse3B s with
  | none => none
  | some fields =>
    some { userAccessKey :=
             ((lookupLastB fields keyUAKb).getD undefinedB).map Char.ofNat,
           token :=
             ((lookupLastB fields keyTokB).getD undefinedB).map Char.ofNat,
           signature :=
             (lookupLastB fields keySigB).map (fun l => l.map Char.ofNat) }

/-! ### Base64 (Node `Buffer` semantics) -/

/-- The standard base64 alphabet character for a 6-bit value. -/
def b64Char (v : Nat) : Char :=
  if v < 26 then Char.ofNat (65 + v)
  else if v < 52 then Char.ofNat (97 + v - 26)
  else if v < 62 then Char.ofNat (48 + v - 52)
  else if v = 62 then Char.ofNat 43
  else Char.ofNat 47

/-- `Buffer.toString("base64")`: standard alphabet, padded. -/
def b64encodeBytes : List Nat → List Char
  | [] => []
  | [b1] => [b64Char (b1 / 4), b64Char (b1 % 4 * 16), '=', '=']
  | [b1, b2] =>
    [b64Char (b1 / 4), b64Char (b1 % 4 * 16 + b2 / 16),
     b64Char (b2 % 16 * 4), '=']
  | b1 :: b2 :: b3 :: rest =>
    b64Char (b1 / 4) :: b64Char (b1 % 4 * 16 + b2 / 16) ::
    b64Char (b2 % 16 * 4 + b3 / 64) :: b64Char (b3 % 64) ::
    b64encodeBytes rest

/-- The 6-bit value of a character under Node's decoder, which accepts
both the standard and the URL-safe alphabet. -/
def b64Value (c : Char) : Option Nat :=
  if 65 ≤ c.toNat ∧ c.toNat ≤ 90 then some (c.toNat - 65)
  else if 97 ≤ c.toNat ∧ c.toNat ≤ 122 then some (c.toNat - 97 + 26)
  else if 48 ≤ c.toNat ∧ c.toNat ≤ 57 then some (c.toNat - 48 + 52)
  else if c.toNat = 43 ∨ c.toNat = 45 then some 62
  else if c.toNat = 47 ∨ c.toNat = 95 then some 63
  else none

/-- Collect 6-bit values: non-alphabet characters are ignored, a padding
character ends the data. -/
def b64Vals : List Char → List Nat
  | [] => []
  | c :: rest =>
    if c = '=' then []
    else
      match b64Value c with
      | some v => v :: b64Vals rest
      | none => b64Vals rest

/-- Reassemble bytes from 6-bit values; a trailing lone value carries no
complete byte and is dropped. -/
def b64decodeVals : List Nat → List Nat
  | v1 :: v2 :: v3 :: v4 :: rest =>
    (v1 * 4 + v2 / 16) :: (v2 % 16 * 16 + v3 / 4) :: (v3 % 4 * 64 + v4) ::
      b64decodeVals rest
  | [v1, v2, v3] => [v1 * 4 + v2 / 16, v2 % 16 * 16 + v3 / 4]
  | [v1, v2] => [v1 * 4 + v2 / 16]
  | [_] => []
  | [] => []

/-- `Buffer.from(s, "base64")`. -/
def b64decode (s : List Char) : List Nat :=
  b64decodeVals (b64Vals s)

/-- The decoding class of a character: its 6-bit value, 64 for padding,
65 for ignored characters. -/
def b64CharClass (c : Char) : Nat :=
  match b64Value c with
  | some v => v
  | none => if c = '=' then 64 else 65

/-- `b64Vals`, phrased on decoding classes. -/
def classesToVals : List Nat → List Nat
  | [] => []
  | k :: rest =>
    if k = 64 then []
    else if k < 64 then k :: classesToVals rest
    else classesToVals rest

/-! ### URI component encoding -/

/-- The characters `encodeURIComponent` leaves intact. -/
def uriUnreserved (c : Char) : Bool :=
  let n := c.toNat
  (65 ≤ n && n ≤ 90) || (97 ≤ n && n ≤ 122) || (48 ≤ n && n ≤ 57) ||
    n = 45 || n = 95 || n = 46 || n = 33 || n = 126 || n = 42 ||
    n = 39 || n = 40 || n = 41

/-- `encodeURIComponent` (over the ASCII range the signer produces). -/
def encodeURIComponent : List Char → List Char
  | [] => []
  | c :: rest =>
    (if uriUnreserved c then [c]
     else ['%', hexDigitUpper (c.toNat / 16), hexDigitUpper (c.toNat % 16)]) ++
      encodeURIComponent rest

/-- `decodeURIComponent` (over single-byte escapes); `none` models the
URIError on a malformed escape. -/
def decodeURIComponent : List Char → Option (List Char)
  | [] => some []
  | c :: rest =>
    if c = '%' then
      match rest with
      | h1 :: h2 :: rest2 =>
        match hexVal h1, hexVal h2 with
        | some a, some b =>
          (decodeURIComponent rest2).map (fun l => Char.ofNat (a * 16 + b) :: l)
        | _, _ => none
      | _ => none
    else
      (decodeURIComponent rest).map (fun l => c :: l)

/-! ### signTokens / verifyToken -/

/-- Errors of `verifyToken`: the `"Invalid token format"` throw covers
both decode and parse failures; `"Invalid token signature"` the
mismatch. -/
inductive TokenError
  | invalidFormat
  | invalidSignature
  deriving DecidableEq, Repr

/-- signTokens: HMAC over `userAccessKey:token`, JSON-stringify the three
fields, UTF-8 bytes, base64, URL-encode. -/
def signTokens (hmac : List Char → List Char)
    (userAccessKey token : List Char) : List Char :=
  encodeURIComponent
    (b64encodeBytes
      (jsonStringifyBytes userAccessKey token
        (hmac (userAccessKey ++ ':' :: token))))

/-- The parse-and-check tail of `verifyToken`, on decoded bytes. -/
def verifyPayloadBytes (hmac : List Char → List Char) (bytes : List Nat) :
    Except TokenError TokenPayload :=
  match jsonParsePayload bytes with
  | none => Except.error TokenError.invalidFormat
  | some payload =>
    match payload.signature with
    | none => Except.error TokenError.invalidSignature
    | some sig =>
      if sig = hmac (payload.userAccessKey ++ ':' :: payload.token) then
        Except.ok payload
      else Except.error TokenError.invalidSignature

/-- verifyToken: base64-decode the presented blob (note: no URL-decode
happens here), parse, recompute the signature and compare. -/
def verifyToken (hmac : List Char → List Char) (signedToken : List Char) :
    Except TokenError TokenPayload :=
  verifyPayloadBytes hmac (b64decode signedToken)

/-! ## Concrete fixtures used by witnesses and counterexamples -/

/-- A concrete stand-in for the HMAC with the digest length (43 base64url
characters) of HMAC-SHA256. -/
def hmacA (_m : List Char) : List Char := List.replicate 43 'A'

/-- A concrete collision-free stand-in for the HMAC: distinct messages get
distinct signatures, modelling the collision resistance the real
HMAC-SHA256 provides. -/
def hmacC (m : List Char) : List Char := 'h' :: m

/-- Concrete userAccessKey for the tampering analysis. -/
def uW : List Char := ['u']

/-- Concrete token for the tampering analysis. -/
def tW : List Char := ['t']

/-- The URL-decoded signed blob for `uW`, `tW` under `hmacC` — the
base64 text whose URL-encoding `signTokens` returns (72 characters: 70
data characters and the padding `==`). -/
def blobW : List Char :=
  b64encodeBytes (jsonStringifyBytes uW tW (hmacC (uW ++ ':' :: tW)))

/-- The decoding classes of `blobW`, precomputed (see `clsW_eq`). -/
def clsW : List Nat :=
  [30, 50, 9, 53, 28, 54, 21, 50, 16, 22, 13, 35, 25, 23, 13, 51, 18, 54,
   21, 57, 8, 35, 40, 34, 29, 18, 8, 44, 8, 39, 17, 47, 26, 54, 21, 46, 8,
   35, 40, 34, 29, 2, 8, 44, 8, 39, 13, 41, 25, 54, 57, 33, 29, 7, 21, 50,
   25, 18, 8, 58, 8, 38, 33, 53, 14, 39, 16, 34, 31, 16, 64, 64]

/-- The decoded bytes of `blobW`, precomputed (see `bytesW_eq`). -/
def bytesW : List Nat :=
  [123, 34, 117, 115, 101, 114, 65, 99, 99, 101, 115, 115, 75, 101, 121,
   34, 58, 34, 117, 34, 44, 34, 116, 111, 107, 101, 110, 34, 58, 34, 116,
   34, 44, 34, 115, 105, 103, 110, 97, 116, 117, 114, 101, 34, 58, 34,
   104, 117, 58, 116, 34, 125]

/-- A connection exposing only tool `"t1"`. -/
def connA : McpConn := { name := "a", listing := Except.ok ["t1"] }

/-- A connection exposing tools `"x"` and `"t2"`. -/
def connB : McpConn := { name := "b", listing := Except.ok ["x", "t2"] }

/-- A connection whose listing query throws. -/
def connC : McpConn := { name := "c", listing := Except.error "listTools failed" }

/-- A concrete collision-free random-token supply. -/
def supplyW (n : Nat) : String := String.mk (List.replicate n 'a')

/-- A registered client with a pending authorization code and an attached
identity (the state after the external login callback). -/
def rowC1 : ClientRow :=
  { client_id := "c1", client := "meta", code := some "code1",
    code_challenge := some "ch", user := some "uid", credentials := none }

/-- A registered client with a pending code but no attached identity. -/
def rowNoUser : ClientRow :=
  { client_id := "c2", client := "meta", code := some "code2",
    code_challenge := some "ch", user := none, credentials := none }

/-- A client holding issued credentials with refresh token `"r1"`. -/
def rowRefresh : ClientRow :=
  { client_id := "b1", client := "meta", code := some "codeb",
    code_challenge := some "chb", user := some "uid",
    credentials := some { access_token := "oldA", token_type := "Bearer",
                          access_token_expired_at := 10, scope := "s",
                          refresh_token := "r1" } }

/-- A store holding one client whose access token `"atok"` expired at
time 5. -/
def dbExpired : Db :=
  [{ client_id := "c1", client := "meta", code := none, code_challenge := none,
     user := none,
     credentials := some { access_token := "atok", token_type := "Bearer",
                           access_token_expired_at := 5, scope := "s",
                           refresh_token := "r9" } }]

end SecureMcpGateway

namespace SecureMcpGateway

/-! ## Helper lemmas -/

theorem supplyW_injective : Function.Injective supplyW := by
  intro a b h
  have : (List.replicate a 'a').length = (List.replicate b 'a').length := by
    rw [show List.replicate a 'a' = List.replicate b 'a' from congrArg String.data h]
  simpa using this

/-- A `find?` over a mapped table, when the map does not change the
predicate's verdict, is the mapped `find?`. -/
theorem find?_map_invar {α : Type} {f : α → α} {p : α → Bool}
    (hf : ∀ r, p (f r) = p r) (l : List α) :
    (l.map f).find? p = (l.find? p).map f := by
  induction l with
  | nil => rfl
  | cons r rest ih =>
    by_cases h : p r
    · simp only [List.map_cons]
      rw [List.find?_cons_of_pos _ (by rw [hf]; exact h),
        List.find?_cons_of_pos _ h]
      rfl
    · simp only [List.map_cons]
      rw [List.find?_cons_of_neg _ (by rw [hf]; simpa using h),
        List.find?_cons_of_neg _ (by simpa using h)]
      exact ih

theorem applyCredUpdate_client_id (cid : String) (creds : Credentials)
    (r : ClientRow) : (applyCredUpdate cid creds r).client_id = r.client_id := by
  unfold applyCredUpdate; split <;> rfl

theorem applyCredUpdate_code (cid : String) (creds : Credentials)
    (r : ClientRow) : (applyCredUpdate cid creds r).code = r.code := by
  unfold applyCredUpdate; split <;> rfl

theorem applyCredUpdate_code_challenge (cid : String) (creds : Credentials)
    (r : ClientRow) :
    (applyCredUpdate cid creds r).code_challenge = r.code_challenge := by
  unfold applyCredUpdate; split <;> rfl

theorem applyCredUpdate_user (cid : String) (creds : Credentials)
    (r : ClientRow) : (applyCredUpdate cid creds r).user = r.user := by
  unfold applyCredUpdate; split <;> rfl

/-- `getByCode` commutes with `updateCredentials`: the update touches only
the `credentials` column, which the code lookup never consults. -/
theorem getByCode_updateCredentials (db : Db) (cid creds cid' code) :
    getByCode (updateCredentials db cid creds) cid' code =
      (getByCode db cid' code).map (applyCredUpdate cid creds) := by
  unfold getByCode updateCredentials
  rw [find?_map_invar]
  intro r
  rw [applyCredUpdate_client_id, applyCredUpdate_code]

/-- After `updateCredentials db cid creds`, any client-id lookup for `cid`
that previously succeeded now returns a row carrying exactly `creds`. -/
theorem getByClientId_updateCredentials_mem {db : Db} {cid : String}
    (creds : Credentials) (h : ∃ r ∈ db, r.client_id = cid) :
    ∃ row2, getByClientId (updateCredentials db cid creds) cid = some row2 ∧
      row2.credentials = some creds ∧ row2.client_id = cid := by
  induction db with
  | nil => simp at h
  | cons r rest ih =>
    by_cases hr : r.client_id = cid
    · refine ⟨{ r with credentials := some creds }, ?_, rfl, hr⟩
      unfold getByClientId updateCredentials
      simp only [List.map_cons]
      rw [List.find?_cons_of_pos]
      · unfold applyCredUpdate
        simp [hr]
      · unfold applyCredUpdate
        simp [hr]
    · obtain ⟨x, hx, hxid⟩ := h
      rcases List.mem_cons.mp hx with hxr | hxrest
      · exact absurd (hxr ▸ hxid) hr
      · obtain ⟨row2, h1, h2, h3⟩ := ih ⟨x, hxrest, hxid⟩
        refine ⟨row2, ?_, h2, h3⟩
        unfold getByClientId updateCredentials at h1 ⊢
        simp only [List.map_cons]
        rw [List.find?_cons_of_neg]
        · exact h1
        · unfold applyCredUpdate
          simp [hr]

/-- `updateCredentials` is a frame for every column other than
`credentials`: row by row, `code`, `code_challenge`, `user` and
`client_id` are untouched. -/
theorem updateCredentials_frame (db : Db) (cid : String) (creds : Credentials)
    (i : Nat) :
    ((updateCredentials db cid creds)[i]?.map ClientRow.code =
       db[i]?.map ClientRow.code) ∧
    ((updateCredentials db cid creds)[i]?.map ClientRow.code_challenge =
       db[i]?.map ClientRow.code_challenge) ∧
    ((updateCredentials db cid creds)[i]?.map ClientRow.user =
       db[i]?.map ClientRow.user) ∧
    ((updateCredentials db cid creds)[i]?.map ClientRow.client_id =
       db[i]?.map ClientRow.client_id) := by
  unfold updateCredentials
  rw [List.getElem?_map]
  cases db[i]? with
  | none => exact ⟨rfl, rfl, rfl, rfl⟩
  | some rr =>
    exact ⟨congrArg some (applyCredUpdate_code _ _ rr),
      congrArg some (applyCredUpdate_code_challenge _ _ rr),
      congrArg some (applyCredUpdate_user _ _ rr),
      congrArg some (applyCredUpdate_client_id _ _ rr)⟩

/-- A row found by `getByCode` is a member with matching id and code. -/
theorem getByCode_mem {db : Db} {cid code : String} {row : ClientRow}
    (h : getByCode db cid code = some row) :
    row ∈ db ∧ row.client_id = cid ∧ row.code = some code := by
  refine ⟨List.mem_of_find?_eq_some h, ?_⟩
  have := List.find?_some h
  simpa using this

/-- A row found by `getByRefreshToken` is a member whose credentials carry
the refresh token. -/
theorem getByRefreshToken_mem {db : Db} {r : String} {row : ClientRow}
    (h : getByRefreshToken db r = some row) :
    row ∈ db ∧ ∃ c, row.credentials = some c ∧ c.refresh_token = r := by
  refine ⟨List.mem_of_find?_eq_some h, ?_⟩
  have hp := List.find?_some h
  cases hc : row.credentials with
  | none => rw [hc] at hp; simp at hp
  | some c =>
    rw [hc] at hp
    exact ⟨c, rfl, by simpa using hp⟩

/-! ## Claim theorems: OAuth authorization provider -/

/-- C1: `exchangeAuthorizationCode` fails Unauthorized when the
`(clientId, code)` pair is not stored; fails Unauthorized when it is stored
but no identity is attached; and when an identity is attached it succeeds,
returning the full credential tuple (freshly minted access and refresh
tokens, token type Bearer, expiry `now + ttl`, the fixed scope set) which
is also persisted for that client. -/
theorem exchangeAuthorizationCode_cases (supply : Nat → String) (sys : AuthSys)
    (clientId code : String) (cv ru : Option String) (now ttl : Nat) :
    (getByCode sys.db clientId code = none →
      exchangeAuthorizationCode supply sys clientId code cv ru now ttl =
        Except.error "Unauthorized: Invalid authorization code") ∧
    (∀ row, getByCode sys.db clientId code = some row → row.user = none →
      exchangeAuthorizationCode supply sys clientId code cv ru now ttl =
        Except.error "Unauthorized: User not found") ∧
    (∀ row u, getByCode sys.db clientId code = some row → row.user = some u →
      ∃ creds sys2,
        exchangeAuthorizationCode supply sys clientId code cv ru now ttl =
          Except.ok (creds, sys2) ∧
        creds.access_token = supply (sys.cnt + 1) ∧
        creds.refresh_token = supply sys.cnt ∧
        creds.token_type = "Bearer" ∧
        creds.access_token_expired_at = now + ttl ∧
        creds.scope = "openid email profile" ∧
        ∃ row2, getByClientId sys2.db clientId = some row2 ∧
          row2.credentials = some creds) := by
  refine ⟨?_, ?_, ?_⟩
  · intro h
    unfold exchangeAuthorizationCode
    rw [h]
  · intro row h hu
    unfold exchangeAuthorizationCode
    simp only [h, hu]
  · intro row u h hu
    obtain ⟨hmem, hid, -⟩ := getByCode_mem h
    refine ⟨{ access_token := supply (sys.cnt + 1), token_type := "Bearer",
              access_token_expired_at := now + ttl,
              scope := "openid email profile",
              refresh_token := supply sys.cnt },
            ⟨updateCredentials sys.db clientId
              { access_token := supply (sys.cnt + 1), token_type := "Bearer",
                access_token_expired_at := now + ttl,
                scope := "openid email profile",
                refresh_token := supply sys.cnt }, sys.cnt + 2⟩,
            ?_, rfl, rfl, rfl, rfl, rfl, ?_⟩
    · unfold exchangeAuthorizationCode
      simp only [h, hu]
      rfl
    · obtain ⟨row2, h1, h2, -⟩ :=
        @getByClientId_updateCredentials_mem sys.db clientId
          { access_token := supply (sys.cnt + 1), token_type := "Bearer",
            access_token_expired_at := now + ttl,
            scope := "openid email profile", refresh_token := supply sys.cnt }
          ⟨row, hmem, hid⟩
      exact ⟨row2, h1, h2⟩

/-- C1 witness: on a concrete store where client `"c1"` holds code
`"code1"` with an attached identity, the exchange succeeds, returns the
expiry 100 + 50, and persists the credentials. -/
theorem exchangeAuthorizationCode_cases_witness :
    ∃ creds sys2,
      exchangeAuthorizationCode supplyW ⟨[rowC1], 0⟩ "c1" "code1" none none 100 50 =
        Except.ok (creds, sys2) ∧
      creds.access_token_expired_at = 150 ∧
      ∃ row2, getByClientId sys2.db "c1" = some row2 ∧
        row2.credentials = some creds := by
  obtain ⟨creds, sys2, hok, -, -, -, hexp, -, hpers⟩ :=
    (exchangeAuthorizationCode_cases supplyW ⟨[rowC1], 0⟩ "c1" "code1"
      none none 100 50).2.2 rowC1 "uid" (by decide) (by decide)
  exact ⟨creds, sys2, hok, hexp, hpers⟩

/-- C2: `exchangeRefreshToken` fails Unauthorized when the refresh token is
not stored for any client; when stored, it succeeds, echoes the presented
refresh token unchanged, mints an access token that (for a collision-free
supply) differs from every previously drawn token value, and defaults the
scope to the fixed default set when no scopes are requested. -/
theorem exchangeRefreshToken_cases (supply : Nat → String) (sys : AuthSys)
    (callerId r : String) (scopes : Option (List String)) (now ttl : Nat) :
    (getByRefreshToken sys.db r = none →
      exchangeRefreshToken supply sys callerId r scopes now ttl =
        Except.error "Unauthorized: Invalid refresh token") ∧
    (∀ row, getByRefreshToken sys.db r = some row →
      ∃ resp sys2,
        exchangeRefreshToken supply sys callerId r scopes now ttl =
          Except.ok (resp, sys2) ∧
        resp.refresh_token = r ∧
        resp.access_token = supply sys.cnt ∧
        (Function.Injective supply →
          ∀ i, i < sys.cnt → resp.access_token ≠ supply i) ∧
        (scopes = none → resp.scope = "openid email profile")) := by
  refine ⟨?_, ?_⟩
  · intro h
    unfold exchangeRefreshToken
    rw [h]
  · intro row h
    refine ⟨{ access_token := supply sys.cnt, token_type := "Bearer",
              expires_in := ttl, scope := scopeOrDefault scopes,
              refresh_token := r },
            ⟨updateCredentials sys.db row.client_id
              { (row.credentials.getD emptyCredentials) with
                access_token := supply sys.cnt,
                access_token_expired_at := now + ttl }, sys.cnt + 1⟩,
            ?_, rfl, rfl, ?_, ?_⟩
    · unfold exchangeRefreshToken
      simp only [h]
      rfl
    · intro hinj i hi heq
      have h2 : supply sys.cnt = supply i := heq
      have h3 := hinj h2
      omega
    · intro hs
      rw [hs]
      rfl

/-- C2 witness: on a concrete store holding refresh token `"r1"`, the
exchange succeeds, echoes `"r1"`, mints the next supply value, and
defaults the scope. -/
theorem exchangeRefreshToken_cases_witness :
    ∃ resp sys2,
      exchangeRefreshToken supplyW ⟨[rowRefresh], 3⟩ "whoever" "r1" none 100 50 =
        Except.ok (resp, sys2) ∧
      resp.refresh_token = "r1" ∧
      resp.access_token = supplyW 3 ∧
      resp.access_token ≠ supplyW 0 ∧
      resp.scope = "openid email profile" := by
  obtain ⟨resp, sys2, hok, hecho, hmint, hfresh, hscope⟩ :=
    (exchangeRefreshToken_cases supplyW ⟨[rowRefresh], 3⟩ "whoever" "r1"
      none 100 50).2 rowRefresh (by decide)
  exact ⟨resp, sys2, hok, hecho, hmint,
    hfresh supplyW_injective 0 (by decide), hscope rfl⟩

/-- C9: a successful `exchangeAuthorizationCode` replaces only the
`credentials` column — every row keeps its `code`, `code_challenge`,
`user` and `client_id` — so a second exchange with the same
`(clientId, code)` afterwards also succeeds and (for a collision-free
supply) mints a different access token. -/
theorem exchangeAuthorizationCode_frame (supply : Nat → String) (sys : AuthSys)
    (clientId code : String) (cv ru cv2 ru2 : Option String)
    (now ttl now2 : Nat) :
    ∀ creds sys2,
      exchangeAuthorizationCode supply sys clientId code cv ru now ttl =
        Except.ok (creds, sys2) →
      ((∀ i : Nat,
          (sys2.db[i]?.map ClientRow.code = sys.db[i]?.map ClientRow.code) ∧
          (sys2.db[i]?.map ClientRow.code_challenge =
            sys.db[i]?.map ClientRow.code_challenge) ∧
          (sys2.db[i]?.map ClientRow.user = sys.db[i]?.map ClientRow.user) ∧
          (sys2.db[i]?.map ClientRow.client_id =
            sys.db[i]?.map ClientRow.client_id)) ∧
       ∃ creds2 sys3,
         exchangeAuthorizationCode supply sys2 clientId code cv2 ru2 now2 ttl =
           Except.ok (creds2, sys3) ∧
         (Function.Injective supply →
           creds2.access_token ≠ creds.access_token)) := by
  intro creds sys2 hok
  unfold exchangeAuthorizationCode at hok
  cases hfind : getByCode sys.db clientId code with
  | none => rw [hfind] at hok; exact absurd hok (by simp)
  | some row =>
    cases huser : row.user with
    | none =>
      simp only [hfind, huser] at hok
      exact absurd hok (by simp)
    | some u =>
      simp only [hfind, huser, mintToken, Except.ok.injEq,
        Prod.mk.injEq] at hok
      obtain ⟨hc, hs⟩ := hok
      subst hc
      subst hs
      constructor
      · intro i
        exact updateCredentials_frame sys.db clientId _ i
      · have hfind2 : getByCode
            (updateCredentials sys.db clientId
              (Credentials.mk (supply (sys.cnt + 1)) "Bearer" (now + ttl)
                "openid email profile" (supply sys.cnt))) clientId code =
            some (applyCredUpdate clientId
              (Credentials.mk (supply (sys.cnt + 1)) "Bearer" (now + ttl)
                "openid email profile" (supply sys.cnt)) row) := by
          rw [getByCode_updateCredentials, hfind]
          rfl
        have huser2 : ∀ cr, (applyCredUpdate clientId cr row).user = some u := by
          intro cr
          rw [applyCredUpdate_user, huser]
        obtain ⟨creds2, sys3, hok2, hacc2, -, -, -, -, -⟩ :=
          (exchangeAuthorizationCode_cases supply
            (AuthSys.mk
              (updateCredentials sys.db clientId
                (Credentials.mk (supply (sys.cnt + 1)) "Bearer" (now + ttl)
                  "openid email profile" (supply sys.cnt)))
              (sys.cnt + 1 + 1))
            clientId code cv2 ru2 now2 ttl).2.2 _ u hfind2 (huser2 _)
        refine ⟨creds2, sys3, ?_, ?_⟩
        · exact hok2
        · intro hinj heq
          have h2 : supply (sys.cnt + 1 + 1 + 1) = supply (sys.cnt + 1) :=
            hacc2.symm.trans heq
          have h3 := hinj h2
          omega

/-- C9 witness: concretely, after one successful exchange for
`("c1", "code1")` a second exchange still succeeds with a fresh access
token. -/
theorem exchangeAuthorizationCode_frame_witness :
    ∃ creds sys2,
      exchangeAuthorizationCode supplyW ⟨[rowC1], 0⟩ "c1" "code1" none none 100 50 =
        Except.ok (creds, sys2) ∧
      ∃ creds2 sys3,
        exchangeAuthorizationCode supplyW sys2 "c1" "code1" none none 200 50 =
          Except.ok (creds2, sys3) ∧
        creds2.access_token ≠ creds.access_token := by
  obtain ⟨creds, sys2, hok, -, -, -, -, -, -⟩ :=
    (exchangeAuthorizationCode_cases supplyW ⟨[rowC1], 0⟩ "c1" "code1"
      none none 100 50).2.2 rowC1 "uid" (by decide) (by decide)
  obtain ⟨hframe, creds2, sys3, hok2, hne⟩ :=
    exchangeAuthorizationCode_frame supplyW ⟨[rowC1], 0⟩ "c1" "code1"
      none none none none 100 50 200 creds sys2 hok
  exact ⟨creds, sys2, hok, creds2, sys3, hok2, hne supplyW_injective⟩

/-- C10: `exchangeRefreshToken` never uses the presenting client's
identity: its result is literally independent of the caller argument, and
when refresh token `r` is stored under client `b`, the exchange succeeds
and writes the new credentials (only `access_token` and the expiry
replaced) to `b`'s record — whatever client presented the token. -/
theorem exchangeRefreshToken_ignores_caller (supply : Nat → String)
    (sys : AuthSys) (callerA callerB r : String)
    (scopes : Option (List String)) (now ttl : Nat) :
    exchangeRefreshToken supply sys callerA r scopes now ttl =
      exchangeRefreshToken supply sys callerB r scopes now ttl ∧
    (∀ row, getByRefreshToken sys.db r = some row →
      ∃ resp sys2,
        exchangeRefreshToken supply sys callerA r scopes now ttl =
          Except.ok (resp, sys2) ∧
        ∃ row2, getByClientId sys2.db row.client_id = some row2 ∧
          row2.credentials =
            some { (row.credentials.getD emptyCredentials) with
                   access_token := supply sys.cnt,
                   access_token_expired_at := now + ttl }) := by
  refine ⟨rfl, ?_⟩
  intro row h
  obtain ⟨hmem, -⟩ := getByRefreshToken_mem h
  refine ⟨RefreshResponse.mk (supply sys.cnt) "Bearer" ttl
      (scopeOrDefault scopes) r,
    AuthSys.mk
      (updateCredentials sys.db row.client_id
        (Credentials.mk (supply sys.cnt)
          (row.credentials.getD emptyCredentials).token_type (now + ttl)
          (row.credentials.getD emptyCredentials).scope
          (row.credentials.getD emptyCredentials).refresh_token))
      (sys.cnt + 1), ?_, ?_⟩
  · unfold exchangeRefreshToken
    simp only [h]
    rfl
  · obtain ⟨row2, h1, h2, -⟩ :=
      @getByClientId_updateCredentials_mem sys.db row.client_id
        (Credentials.mk (supply sys.cnt)
          (row.credentials.getD emptyCredentials).token_type (now + ttl)
          (row.credentials.getD emptyCredentials).scope
          (row.credentials.getD emptyCredentials).refresh_token)
        ⟨row, hmem, rfl⟩
    exact ⟨row2, h1, h2⟩

/-- C10 witness: a caller distinct from the owning client `"b1"` still
refreshes successfully, and `"b1"`'s record receives the new
credentials. -/
theorem exchangeRefreshToken_ignores_caller_witness :
    exchangeRefreshToken supplyW ⟨[rowRefresh], 0⟩ "attacker" "r1" none 100 50 =
      exchangeRefreshToken supplyW ⟨[rowRefresh], 0⟩ "b1" "r1" none 100 50 ∧
    ∃ resp sys2,
      exchangeRefreshToken supplyW ⟨[rowRefresh], 0⟩ "attacker" "r1" none 100 50 =
        Except.ok (resp, sys2) ∧
      ∃ row2, getByClientId sys2.db "b1" = some row2 ∧
        row2.credentials =
          some { access_token := supplyW 0, token_type := "Bearer",
                 access_token_expired_at := 150, scope := "s",
                 refresh_token := "r1" } := by
  obtain ⟨heq, hrest⟩ :=
    exchangeRefreshToken_ignores_caller supplyW ⟨[rowRefresh], 0⟩
      "attacker" "b1" "r1" none 100 50
  obtain ⟨resp, sys2, hok, row2, h1, h2⟩ := hrest rowRefresh (by decide)
  exact ⟨heq, resp, sys2, hok, row2, h1, h2⟩

/-! ## Claim theorems: expired bearer credentials (C8) -/

/-- C8 counterexample: on a concrete store whose access token `"atok"`
expired at time 5, and with the clock at 10, `verifyAccessToken` does not
fail Unauthorized — it succeeds and returns the stale expiry — refuting
the claim that `verifyAccessToken` fails Unauthorized for an expired
credential. -/
theorem verifyAccessToken_expired_succeeds :
    (∃ row, getByAccessToken dbExpired "atok" = some row ∧
       ∃ c, row.credentials = some c ∧ c.access_token_expired_at < 10) ∧
    verifyAccessToken dbExpired "atok" =
      Except.ok { token := "atok", clientId := "c1",
                  scopes := ["openid", "email", "profile"], expiresAt := 5 } := by
  constructor
  · refine ⟨_, rfl, _, rfl, ?_⟩
    decide
  · rfl

/-- C8 amended: expiry of a stored access token is never checked by
`verifyAccessToken` itself — it succeeds and merely reports the stored
expiry — while the direct tool-call route rejects the expired credential
as Unauthorized through its own `expired_at < now` comparison. -/
theorem expired_token_route_unauthorized (db : Db) (token : String)
    (now : Nat) :
    ∀ client c, getByAccessToken db token = some client →
      client.credentials = some c → c.access_token_expired_at < now →
      directCallAuth db token now = CallAuthOutcome.unauthorized ∧
      verifyAccessToken db token =
        Except.ok { token := token, clientId := client.client_id,
                    scopes := ["openid", "email", "profile"],
                    expiresAt := c.access_token_expired_at } := by
  intro client c hfind hcreds hexp
  constructor
  · unfold directCallAuth
    simp only [hfind, hcreds]
    simp [hexp]
  · unfold verifyAccessToken
    simp only [hfind, hcreds]
    rfl

/-- C8 witness: the concrete expired store is rejected by the route at
time 10 while `verifyAccessToken` still succeeds. -/
theorem expired_token_route_unauthorized_witness :
    directCallAuth dbExpired "atok" 10 = CallAuthOutcome.unauthorized ∧
    verifyAccessToken dbExpired "atok" =
      Except.ok { token := "atok", clientId := "c1",
                  scopes := ["openid", "email", "profile"], expiresAt := 5 } := by
  exact expired_token_route_unauthorized dbExpired "atok" 10
    ((dbExpired.get ⟨0, by decide⟩)) _ rfl rfl (by decide)

/-! ## Claim theorems: downstream tool lookup (C4) -/

/-- C4: `findMcpClientByToolName` returns a connection whose tool listing
contains the tool whenever at least one connection exposes it, and `null`
when none does (a connection whose listing throws exposes nothing and is
skipped). -/
theorem findMcpClientByToolName_spec (clients : List McpConn)
    (toolName : String) :
    ((∃ c ∈ clients, exposesTool c toolName = true) →
      ∃ c, findMcpClientByToolName clients toolName = some c ∧
        exposesTool c toolName = true) ∧
    ((∀ c ∈ clients, exposesTool c toolName = false) →
      findMcpClientByToolName clients toolName = none) := by
  constructor
  · intro h
    have hsome : (clients.find? (fun c => exposesTool c toolName)).isSome = true :=
      List.find?_isSome.mpr h
    cases hfind : clients.find? (fun c => exposesTool c toolName) with
    | none => rw [hfind] at hsome; exact Bool.noConfusion hsome
    | some c =>
      have hp := List.find?_some hfind
      exact ⟨c, hfind, hp⟩
  · intro h
    unfold findMcpClientByToolName
    rw [List.find?_eq_none]
    intro x hx
    rw [h x hx]
    exact fun hh => Bool.noConfusion hh

/-- C4 witness: with servers a, b, c configured and tool `"x"` present
only on b's listing (and c's listing failing), the lookup returns b's
connection; a nonexistent tool name yields none. -/
theorem findMcpClientByToolName_spec_witness :
    findMcpClientByToolName [connA, connB, connC] "x" = some connB ∧
    findMcpClientByToolName [connA, connB, connC] "zzz" = none := by
  obtain ⟨c, hfind, hexp⟩ :=
    (findMcpClientByToolName_spec [connA, connB, connC] "x").1
      ⟨connB, by decide, by decide⟩
  refine ⟨?_,
    (findMcpClientByToolName_spec [connA, connB, connC] "zzz").2 (by decide)⟩
  decide

/-! ## Claim theorems: tool-call request handler (C6) -/

/-- C6 (code bug): the CallTool handler never returns the not-found error
object and never returns a structured downstream error — because the
finder's Promise is not awaited, the handler throws a TypeError on every
input; and even the intended (awaited) handler, which does return the
not-found object, re-raises a downstream `callTool` failure instead of
returning a structured error payload, since it has no try/catch. -/
theorem callToolHandler_always_throws :
    (∀ (clients : List McpConn) (call : McpConn → Except String String)
      (toolName : String),
      callToolHandler clients call toolName =
        CallToolOutcome.thrown "TypeError: client.callTool is not a function") ∧
    callToolHandlerAwaited [connB] (fun _ => Except.ok "ran") "zzz" =
      CallToolOutcome.errorObject (-32000) "Tool not found" ∧
    callToolHandlerAwaited [connB] (fun _ => Except.error "downstream failure") "x" =
      CallToolOutcome.thrown "downstream failure" := by
  exact ⟨fun clients call toolName => rfl, by decide, by decide⟩

/-! ## Claim theorems: per-tenant connection provisioning (C5) -/

theorem mem_of_getElem?_some {α : Type} {l : List α} {i : Nat} {a : α}
    (h : l[i]? = some a) : a ∈ l := by
  obtain ⟨hlt, heq⟩ := List.getElem?_eq_some.mp h
  exact heq ▸ List.getElem_mem hlt

theorem lt_length_of_getElem?_some {α : Type} {l : List α} {i : Nat} {a : α}
    (h : l[i]? = some a) : i < l.length :=
  (List.getElem?_eq_some.mp h).1

/-- Looking up a `loading` phase in a task list whose `i`-th entry was
replaced by a non-`loading` phase lands away from `i`, in the old list. -/
theorem set_getElem?_other {l : List TaskPhase} {i j : Nat} {t : TaskPhase}
    {p : List String} (hne : ∀ q, t ≠ TaskPhase.loading q)
    (h : (l.set i t)[j]? = some (TaskPhase.loading p)) :
    i ≠ j ∧ l[j]? = some (TaskPhase.loading p) := by
  by_cases hij : i = j
  · subst hij
    by_cases hlen : i < l.length
    · rw [List.getElem?_set_self hlen] at h
      exact absurd (Option.some.inj h) (hne p)
    · simp [List.getElem?_set, hlen] at h
  · rw [List.getElem?_set_ne hij] at h
    exact ⟨hij, h⟩

/-- Looking up a `loading` phase after replacing entry `i` by a `loading`
phase: either it is the new entry, or it sits away from `i` in the old
list. -/
theorem set_getElem?_loading {l : List TaskPhase} {i j : Nat}
    {r p : List String}
    (h : (l.set i (TaskPhase.loading r))[j]? = some (TaskPhase.loading p))
    (hi : i < l.length) :
    (i = j ∧ p = r) ∨ (i ≠ j ∧ l[j]? = some (TaskPhase.loading p)) := by
  by_cases hij : i = j
  · subst hij
    rw [List.getElem?_set_self hi] at h
    exact Or.inl ⟨rfl, (TaskPhase.loading.inj (Option.some.inj h)).symm⟩
  · exact Or.inr ⟨hij, by rwa [List.getElem?_set_ne hij] at h⟩

theorem taskPhase_returned_ne_loading (snap : List String) :
    ∀ q, TaskPhase.returned snap ≠ TaskPhase.loading q :=
  fun _ h => TaskPhase.noConfusion h

theorem stepPool_none {s : PoolState} {i : Nat} (h : s.tasks[i]? = none) :
    stepPool s i = s := by
  unfold stepPool
  simp only [h]

theorem stepPool_start_true {s : PoolState} {i : Nat}
    (h : s.tasks[i]? = some TaskPhase.start) (he : s.entry = true) :
    stepPool s i =
      { s with tasks := s.tasks.set i (TaskPhase.returned s.created) } := by
  unfold stepPool
  simp only [h]
  rw [if_pos he]

theorem stepPool_start_false {s : PoolState} {i : Nat}
    (h : s.tasks[i]? = some TaskPhase.start) (he : s.entry = false) :
    stepPool s i =
      { s with entry := true,
               tasks := s.tasks.set i (TaskPhase.loading s.config) } := by
  unfold stepPool
  simp only [h]
  rw [if_neg (by simp [he])]

theorem stepPool_loading_nil {s : PoolState} {i : Nat}
    (h : s.tasks[i]? = some (TaskPhase.loading [])) :
    stepPool s i =
      { s with tasks := s.tasks.set i (TaskPhase.returned s.created) } := by
  unfold stepPool
  simp only [h]

theorem stepPool_loading_cons {s : PoolState} {i : Nat} {srv : String}
    {rest : List String}
    (h : s.tasks[i]? = some (TaskPhase.loading (srv :: rest))) :
    stepPool s i =
      { s with created := s.created ++ [srv],
               tasks := s.tasks.set i (TaskPhase.loading rest) } := by
  unfold stepPool
  simp only [h]

theorem stepPool_returned {s : PoolState} {i : Nat} {snap : List String}
    (h : s.tasks[i]? = some (TaskPhase.returned snap)) :
    stepPool s i = s := by
  unfold stepPool
  simp only [h]

/-- One scheduler step preserves the provisioning invariant. -/
theorem stepPool_inv {s : PoolState} (hI : PoolInv s) (i : Nat) :
    PoolInv (stepPool s i) := by
  obtain ⟨h1, h2, h3, h4, h5⟩ := hI
  cases hti : s.tasks[i]? with
  | none => rw [stepPool_none hti]; exact ⟨h1, h2, h3, h4, h5⟩
  | some t =>
    have hilen : i < s.tasks.length := lt_length_of_getElem?_some hti
    cases t with
    | start =>
      cases hentry : s.entry with
      | true =>
        rw [stepPool_start_true hti hentry]
        refine ⟨?_, ?_, ?_, ?_, ?_⟩
        · intro p hp
          obtain ⟨j, hj⟩ := List.mem_iff_getElem?.mp hp
          obtain ⟨-, hj'⟩ :=
            set_getElem?_other (taskPhase_returned_ne_loading _) hj
          exact h1 p (mem_of_getElem?_some hj')
        · intro a b p q ha hb
          obtain ⟨-, ha'⟩ :=
            set_getElem?_other (taskPhase_returned_ne_loading _) ha
          obtain ⟨-, hb'⟩ :=
            set_getElem?_other (taskPhase_returned_ne_loading _) hb
          exact h2 a b p q ha' hb'
        · intro hff
          have hc : s.entry = false := hff
          rw [hc] at hentry
          exact Bool.noConfusion hentry
        · intro _
          rcases h4 hentry with ⟨p, hp⟩ | hcfg
          · left
            obtain ⟨j, hj⟩ := List.mem_iff_getElem?.mp hp
            have hji : j ≠ i := by
              intro hh
              rw [hh, hti] at hj
              exact TaskPhase.noConfusion (Option.some.inj hj)
            refine ⟨p, mem_of_getElem?_some (i := j) ?_⟩
            rw [List.getElem?_set_ne (Ne.symm hji)]
            exact hj
          · right
            exact hcfg
        · right
          exact hentry
      | false =>
        rw [stepPool_start_false hti hentry]
        have hnold : ∀ p, TaskPhase.loading p ∉ s.tasks := by
          intro p hp
          have he := (h1 p hp).1
          rw [hentry] at he
          exact Bool.noConfusion he
        refine ⟨?_, ?_, ?_, ?_, ?_⟩
        · intro p hp
          obtain ⟨j, hj⟩ := List.mem_iff_getElem?.mp hp
          rcases set_getElem?_loading hj hilen with ⟨-, hpc⟩ | ⟨-, hj'⟩
          · subst hpc
            refine ⟨rfl, ?_⟩
            have hcr : s.created = [] := h3 hentry
            rw [hcr]
            rfl
          · exact absurd (mem_of_getElem?_some hj') (hnold p)
        · intro a b p q ha hb
          rcases set_getElem?_loading ha hilen with ⟨hia, -⟩ | ⟨-, ha'⟩
          · rcases set_getElem?_loading hb hilen with ⟨hib, -⟩ | ⟨-, hb'⟩
            · rw [← hia, ← hib]
            · exact absurd (mem_of_getElem?_some hb') (hnold q)
          · exact absurd (mem_of_getElem?_some ha') (hnold p)
        · intro hff
          have hc : (true : Bool) = false := hff
          exact Bool.noConfusion hc
        · intro _
          left
          exact ⟨s.config, List.mem_set s.tasks i hilen _⟩
        · right
          rfl
    | loading p =>
      cases p with
      | nil =>
        obtain ⟨hen, hcfg⟩ := h1 [] (mem_of_getElem?_some hti)
        rw [stepPool_loading_nil hti]
        refine ⟨?_, ?_, ?_, ?_, ?_⟩
        · intro q hq
          obtain ⟨j, hj⟩ := List.mem_iff_getElem?.mp hq
          obtain ⟨-, hj'⟩ :=
            set_getElem?_other (taskPhase_returned_ne_loading _) hj
          exact h1 q (mem_of_getElem?_some hj')
        · intro a b q r ha hb
          obtain ⟨-, ha'⟩ :=
            set_getElem?_other (taskPhase_returned_ne_loading _) ha
          obtain ⟨-, hb'⟩ :=
            set_getElem?_other (taskPhase_returned_ne_loading _) hb
          exact h2 a b q r ha' hb'
        · intro hff
          have hc : s.entry = false := hff
          rw [hc] at hen
          exact Bool.noConfusion hen
        · intro _
          right
          rw [← hcfg, List.append_nil]
        · right
          exact hen
      | cons srv rest =>
        obtain ⟨hen, hcfg⟩ := h1 _ (mem_of_getElem?_some hti)
        rw [stepPool_loading_cons hti]
        refine ⟨?_, ?_, ?_, ?_, ?_⟩
        · intro q hq
          obtain ⟨j, hj⟩ := List.mem_iff_getElem?.mp hq
          rcases set_getElem?_loading hj hilen with ⟨-, hqr⟩ | ⟨hij, hj'⟩
          · subst hqr
            refine ⟨hen, ?_⟩
            rw [List.append_assoc]
            exact hcfg
          · exact absurd (h2 j i q (srv :: rest) hj' hti) (Ne.symm hij)
        · intro a b q r ha hb
          rcases set_getElem?_loading ha hilen with ⟨hia, -⟩ | ⟨hia, ha'⟩
          · rcases set_getElem?_loading hb hilen with ⟨hib, -⟩ | ⟨hib, hb'⟩
            · rw [← hia, ← hib]
            · exact absurd (h2 b i r (srv :: rest) hb' hti) (Ne.symm hib)
          · exact absurd (h2 a i q (srv :: rest) ha' hti) (Ne.symm hia)
        · intro hff
          have hc : s.entry = false := hff
          rw [hc] at hen
          exact Bool.noConfusion hen
        · intro _
          left
          exact ⟨rest, List.mem_set s.tasks i hilen _⟩
        · right
          exact hen
    | returned snap =>
      rw [stepPool_returned hti]
      exact ⟨h1, h2, h3, h4, h5⟩

theorem runPool_inv {s : PoolState} (h : PoolInv s) (sched : List Nat) :
    PoolInv (runPool s sched) := by
  induction sched generalizing s with
  | nil => exact h
  | cons i rest ih => exact ih (stepPool_inv h i)

theorem stepPool_config (s : PoolState) (i : Nat) :
    (stepPool s i).config = s.config := by
  cases hti : s.tasks[i]? with
  | none => rw [stepPool_none hti]
  | some t =>
    cases t with
    | start =>
      cases hentry : s.entry with
      | true => rw [stepPool_start_true hti hentry]
      | false => rw [stepPool_start_false hti hentry]
    | loading p =>
      cases p with
      | nil => rw [stepPool_loading_nil hti]
      | cons srv rest => rw [stepPool_loading_cons hti]
    | returned snap => rw [stepPool_returned hti]

theorem runPool_config (s : PoolState) (sched : List Nat) :
    (runPool s sched).config = s.config := by
  induction sched generalizing s with
  | nil => rfl
  | cons i rest ih =>
    show (runPool (stepPool s i) rest).config = s.config
    rw [ih, stepPool_config]

theorem stepPool_tasks_length (s : PoolState) (i : Nat) :
    (stepPool s i).tasks.length = s.tasks.length := by
  cases hti : s.tasks[i]? with
  | none => rw [stepPool_none hti]
  | some t =>
    cases t with
    | start =>
      cases hentry : s.entry with
      | true => rw [stepPool_start_true hti hentry]; exact List.length_set ..
      | false => rw [stepPool_start_false hti hentry]; exact List.length_set ..
    | loading p =>
      cases p with
      | nil => rw [stepPool_loading_nil hti]; exact List.length_set ..
      | cons srv rest => rw [stepPool_loading_cons hti]; exact List.length_set ..
    | returned snap => rw [stepPool_returned hti]

theorem runPool_tasks_length (s : PoolState) (sched : List Nat) :
    (runPool s sched).tasks.length = s.tasks.length := by
  induction sched generalizing s with
  | nil => rfl
  | cons i rest ih =>
    show (runPool (stepPool s i) rest).tasks.length = s.tasks.length
    rw [ih, stepPool_tasks_length]

theorem initPool_inv (config : List String) (n : Nat) :
    PoolInv (initPool config n) := by
  refine ⟨?_, ?_, ?_, ?_, ?_⟩
  · intro p hp
    exact absurd (List.eq_of_mem_replicate hp)
      (fun hh => TaskPhase.noConfusion hh)
  · intro a b p q ha hb
    have ha' : (List.replicate n TaskPhase.start)[a]? =
      some (TaskPhase.loading p) := ha
    rw [List.getElem?_replicate] at ha'
    by_cases ha2 : a < n
    · rw [if_pos ha2] at ha'
      exact absurd (Option.some.inj ha') (fun hh => TaskPhase.noConfusion hh)
    · rw [if_neg ha2] at ha'
      exact Option.noConfusion ha'
  · intro _
    rfl
  · intro hff
    exact Bool.noConfusion hff
  · left
    intro t ht
    exact List.eq_of_mem_replicate ht

/-- From the invariant: the created connections always form an initial
segment of the configuration — no server is ever provisioned twice. -/
theorem poolInv_created_covers {s : PoolState} (h : PoolInv s) :
    ∃ rest, s.created ++ rest = s.config := by
  obtain ⟨h1, h2, h3, h4, h5⟩ := h
  cases he : s.entry with
  | false =>
    refine ⟨s.config, ?_⟩
    rw [h3 he]
    rfl
  | true =>
    rcases h4 he with ⟨p, hp⟩ | hcfg
    · exact ⟨p, (h1 p hp).2⟩
    · exact ⟨[], by rw [List.append_nil]; exact hcfg⟩

/-- C5 (amended): under every interleaving of N concurrent first-time
callers for the same tenant key, each configured server's connection is
created at most once (the membership guard and the reservation are one
synchronous step, so initialization is never retriggered), and once every
caller has returned the created connections are exactly the configured
ones. -/
theorem ensureConnected_provision_once (config : List String) (n : Nat)
    (sched : List Nat) :
    (∀ srv, (runPool (initPool config n) sched).created.count srv ≤
      config.count srv) ∧
    (0 < n →
      (∀ t ∈ (runPool (initPool config n) sched).tasks,
        t.isReturned = true) →
      (runPool (initPool config n) sched).created = config) := by
  have hInv := runPool_inv (initPool_inv config n) sched
  have hcfg : (runPool (initPool config n) sched).config = config :=
    runPool_config (initPool config n) sched
  constructor
  · intro srv
    obtain ⟨rest, hr⟩ := poolInv_created_covers hInv
    rw [hcfg] at hr
    calc (runPool (initPool config n) sched).created.count srv
        ≤ (runPool (initPool config n) sched).created.count srv +
            rest.count srv := Nat.le_add_right _ _
      _ = config.count srv := by rw [← List.count_append, hr]
  · intro hn hall
    obtain ⟨h1, h2, h3, h4, h5⟩ := hInv
    have hlen : (runPool (initPool config n) sched).tasks.length = n := by
      rw [runPool_tasks_length]
      exact List.length_replicate ..
    have hentry : (runPool (initPool config n) sched).entry = true := by
      rcases h5 with hstart | he
      · obtain ⟨t, ht⟩ :=
          List.exists_mem_of_length_pos (by rw [hlen]; exact hn)
        have h1t := hall t ht
        rw [hstart t ht] at h1t
        exact absurd h1t (by simp [TaskPhase.isReturned])
      · exact he
    rcases h4 hentry with ⟨p, hp⟩ | hc
    · have hpr := hall _ hp
      simp [TaskPhase.isReturned] at hpr
    · rw [hc]
      exact hcfg

/-- C5 witness: three concurrent callers with servers a, b configured, on
a schedule completing everything, end with exactly one connection per
server. -/
theorem ensureConnected_provision_once_witness :
    (runPool (initPool ["a", "b"] 3) [0, 0, 0, 0, 1, 2]).created =
      ["a", "b"] ∧
    (runPool (initPool ["a", "b"] 3) [0, 0, 0, 0, 1, 2]).created.count "a" ≤ 1 := by
  have h := ensureConnected_provision_once ["a", "b"] 3 [0, 0, 0, 0, 1, 2]
  refine ⟨h.2 (by decide) (by decide), ?_⟩
  exact le_trans (h.1 "a") (by decide)

/-- C5 counterexample: with one server configured and two concurrent
callers, the schedule that runs the second caller's guard right after the
first caller's reservation lets the second caller return with no
connection established — it does not await the in-flight initialization —
even though the connection is created later. -/
theorem ensureConnected_late_caller_early_return :
    ((runPool (initPool ["a"] 2) [0, 1, 0, 0]).tasks[1]? =
      some (TaskPhase.returned [])) ∧
    (runPool (initPool ["a"] 2) [0, 1, 0, 0]).created = ["a"] := by
  decide

/-! ## Base64 decoding classes (for the tamper analysis of C7) -/

theorem b64Value_lt {c : Char} {v : Nat} (h : b64Value c = some v) :
    v < 64 := by
  unfold b64Value at h
  split_ifs at h <;>
    first
      | exact Option.noConfusion h
      | (have hv := Option.some.inj h; omega)

theorem b64CharClass_eq_val {c : Char} {v : Nat} (h : b64Value c = some v) :
    b64CharClass c = v := by
  unfold b64CharClass
  rw [h]

theorem b64CharClass_eq_pad {c : Char} (h : b64Value c = none)
    (hc : c = '=') : b64CharClass c = 64 := by
  unfold b64CharClass
  rw [h, if_pos hc]

theorem b64CharClass_eq_skip {c : Char} (h : b64Value c = none)
    (hc : ¬ c = '=') : b64CharClass c = 65 := by
  unfold b64CharClass
  rw [h, if_neg hc]

theorem b64Vals_eq_classes (s : List Char) :
    b64Vals s = classesToVals (s.map b64CharClass) := by
  induction s with
  | nil => rfl
  | cons c rest ih =>
    rw [List.map_cons]
    cases hbv : b64Value c with
    | some v =>
      have hc : ¬ c = '=' := by
        intro hh
        rw [hh] at hbv
        exact Option.noConfusion
          ((by decide : (b64Value '=' : Option Nat) = none).symm.trans hbv)
      have hv64 := b64Value_lt hbv
      rw [b64CharClass_eq_val hbv]
      unfold b64Vals classesToVals
      simp only [hbv, if_neg hc]
      rw [if_neg (by omega : ¬ v = 64), if_pos hv64, ih]
    | none =>
      by_cases hc : c = '='
      · rw [b64CharClass_eq_pad hbv hc]
        unfold b64Vals classesToVals
        rw [if_pos hc, if_pos rfl]
      · rw [b64CharClass_eq_skip hbv hc]
        unfold b64Vals classesToVals
        simp only [hbv, if_neg hc]
        rw [if_neg (by omega : ¬ (65 : Nat) = 64),
          if_neg (by omega : ¬ (65 : Nat) < 64)]
        exact ih

theorem b64CharClass_lt (c : Char) : b64CharClass c < 66 := by
  cases hbv : b64Value c with
  | some v =>
    rw [b64CharClass_eq_val hbv]
    exact Nat.lt_trans (b64Value_lt hbv) (by omega)
  | none =>
    by_cases hc : c = '='
    · rw [b64CharClass_eq_pad hbv hc]
      omega
    · rw [b64CharClass_eq_skip hbv hc]
      omega

/-- Below the padding and ignore classes, the decoding class determines
the character: the only aliased values are 62 and 63 (`+`/`-` and
`/`/`_`). -/
theorem b64CharClass_det {c c' : Char} (h62 : b64CharClass c < 62)
    (heq : b64CharClass c = b64CharClass c') : c = c' := by
  unfold b64CharClass at h62 heq
  cases hbv : b64Value c with
  | none =>
    exfalso
    simp only [hbv] at h62
    split at h62 <;> omega
  | some v =>
    simp only [hbv] at h62 heq
    cases hbv' : b64Value c' with
    | none =>
      exfalso
      simp only [hbv'] at heq
      split at heq <;> omega
    | some w =>
      simp only [hbv'] at heq
      subst heq
      unfold b64Value at hbv hbv'
      split_ifs at hbv hbv' <;>
        first
          | exact Option.noConfusion hbv
          | exact Option.noConfusion hbv'
          | (have e1 := Option.some.inj hbv
             have e2 := Option.some.inj hbv'
             have hnn : c.toNat = c'.toNat := by omega
             rw [← Char.ofNat_toNat c, ← Char.ofNat_toNat c', hnn])

/-! ## Claim theorems: tampering with the signed blob (C7) -/

set_option maxHeartbeats 1000000 in
/-- Tamper core, positions 0-9: replacing the decoding class at position
i by any other class below 66 makes verification fail.  The enumeration
is split by position range to keep each kernel check small. -/
theorem tamperCoreChunk0 : ∀ i, i < 10 → ∀ k, k < 66 → k ≠ clsW.getD i 99 →
    (verifyPayloadBytes hmacC
      (b64decodeVals (classesToVals (clsW.set i k)))).isOk = false := by
  decide

set_option maxHeartbeats 1000000 in
/-- Tamper core, positions 10-19. -/
theorem tamperCoreChunk1 : ∀ i, i < 10 → ∀ k, k < 66 →
    k ≠ clsW.getD (10 + i) 99 →
    (verifyPayloadBytes hmacC
      (b64decodeVals (classesToVals (clsW.set (10 + i) k)))).isOk = false := by
  decide

set_option maxHeartbeats 1000000 in
/-- Tamper core, positions 20-29. -/
theorem tamperCoreChunk2 : ∀ i, i < 10 → ∀ k, k < 66 →
    k ≠ clsW.getD (20 + i) 99 →
    (verifyPayloadBytes hmacC
      (b64decodeVals (classesToVals (clsW.set (20 + i) k)))).isOk = false := by
  decide

set_option maxHeartbeats 1000000 in
/-- Tamper core, positions 30-39. -/
theorem tamperCoreChunk3 : ∀ i, i < 10 → ∀ k, k < 66 →
    k ≠ clsW.getD (30 + i) 99 →
    (verifyPayloadBytes hmacC
      (b64decodeVals (classesToVals (clsW.set (30 + i) k)))).isOk = false := by
  decide

set_option maxHeartbeats 1000000 in
/-- Tamper core, positions 40-49. -/
theorem tamperCoreChunk4 : ∀ i, i < 10 → ∀ k, k < 66 →
    k ≠ clsW.getD (40 + i) 99 →
    (verifyPayloadBytes hmacC
      (b64decodeVals (classesToVals (clsW.set (40 + i) k)))).isOk = false := by
  decide

set_option maxHeartbeats 1000000 in
/-- Tamper core, positions 50-59. -/
theorem tamperCoreChunk5 : ∀ i, i < 10 → ∀ k, k < 66 →
    k ≠ clsW.getD (50 + i) 99 →
    (verifyPayloadBytes hmacC
      (b64decodeVals (classesToVals (clsW.set (50 + i) k)))).isOk = false := by
  decide

set_option maxHeartbeats 1000000 in
/-- Tamper core, positions 60-68. -/
theorem tamperCoreChunk6 : ∀ i, i < 9 → ∀ k, k < 66 →
    k ≠ clsW.getD (60 + i) 99 →
    (verifyPayloadBytes hmacC
      (b64decodeVals (classesToVals (clsW.set (60 + i) k)))).isOk = false := by
  decide

set_option maxHeartbeats 1000000 in
/-- Tamper core, final data position 69: a replacement class either
leaves the decoded bytes unchanged (the four trailing bits the decoder
drops) or makes verification fail. -/
theorem tamperCoreFinal : ∀ k, k < 66 →
    b64decodeVals (classesToVals (clsW.set 69 k)) = bytesW ∨
    (verifyPayloadBytes hmacC
      (b64decodeVals (classesToVals (clsW.set 69 k)))).isOk = false := by
  decide

/-- C7 counterexample: substituting the first byte of the signed blob
makes verification fail with the format error, not the signature error —
the corrupted base64 no longer decodes to parseable JSON. -/
theorem verifyToken_flip_format_error :
    verifyToken hmacC ((signTokens hmacC uW tW).set 0 'Q') =
      Except.error TokenError.invalidFormat ∧
    TokenError.invalidFormat ≠ TokenError.invalidSignature := by
  exact ⟨by decide, by decide⟩

set_option maxHeartbeats 4000000 in
/-- C7 (amended): on the URL-decoded signed blob (the form the verifier
can actually read back, and here produced with a collision-free signature
function), every single-character substitution in the data region before
the final quantum's trailing bits makes verification fail (with
InvalidFormat or InvalidSignature); a substitution of the final data
character either changes the decoded bytes — and is rejected — or only
touches the four trailing bits the base64 decoder ignores, and goes
undetected; substituting a padding character is likewise undetected. -/
theorem verifyToken_single_char_tamper :
    decodeURIComponent (signTokens hmacC uW tW) = some blobW ∧
    verifyToken hmacC blobW =
      Except.ok { userAccessKey := uW, token := tW,
                  signature := some (hmacC (uW ++ ':' :: tW)) } ∧
    (∀ (i : Nat) (c : Char), i < 69 → blobW[i]? ≠ some c →
      (verifyToken hmacC (blobW.set i c)).isOk = false) ∧
    (∀ c : Char,
      b64decode (blobW.set 69 c) = b64decode blobW ∨
      (verifyToken hmacC (blobW.set 69 c)).isOk = false) ∧
    verifyToken hmacC (blobW.set 70 '.') = verifyToken hmacC blobW := by
  have hcls : blobW.map b64CharClass = clsW := by decide
  refine ⟨by decide, by decide, ?_, ?_, by decide⟩
  · have hcore : ∀ i, i < 69 → ∀ k, k < 66 → k ≠ clsW.getD i 99 →
        (verifyPayloadBytes hmacC
          (b64decodeVals (classesToVals (clsW.set i k)))).isOk = false := by
      intro i hi k hk hne
      by_cases c0 : i < 10
      · exact tamperCoreChunk0 i c0 k hk hne
      · by_cases c1 : i < 20
        · have hij : 10 + (i - 10) = i := by omega
          rw [← hij] at hne ⊢
          exact tamperCoreChunk1 (i - 10) (by omega) k hk hne
        · by_cases c2 : i < 30
          · have hij : 20 + (i - 20) = i := by omega
            rw [← hij] at hne ⊢
            exact tamperCoreChunk2 (i - 20) (by omega) k hk hne
          · by_cases c3 : i < 40
            · have hij : 30 + (i - 30) = i := by omega
              rw [← hij] at hne ⊢
              exact tamperCoreChunk3 (i - 30) (by omega) k hk hne
            · by_cases c4 : i < 50
              · have hij : 40 + (i - 40) = i := by omega
                rw [← hij] at hne ⊢
                exact tamperCoreChunk4 (i - 40) (by omega) k hk hne
              · by_cases c5 : i < 60
                · have hij : 50 + (i - 50) = i := by omega
                  rw [← hij] at hne ⊢
                  exact tamperCoreChunk5 (i - 50) (by omega) k hk hne
                · have hij : 60 + (i - 60) = i := by omega
                  rw [← hij] at hne ⊢
                  exact tamperCoreChunk6 (i - 60) (by omega) k hk hne
    have hlow : ∀ i, i < 69 → clsW.getD i 99 < 62 := by decide
    intro i c hi hne
    have hlift : verifyToken hmacC (blobW.set i c) =
        verifyPayloadBytes hmacC
          (b64decodeVals (classesToVals (clsW.set i (b64CharClass c)))) := by
      unfold verifyToken b64decode
      rw [b64Vals_eq_classes, List.map_set, hcls]
    rw [hlift]
    by_cases heq : b64CharClass c = clsW.getD i 99
    · exfalso
      have hilen : i < blobW.length := lt_of_lt_of_le hi (by decide)
      have hbc : blobW[i]? = some (blobW.get ⟨i, hilen⟩) := by
        rw [List.getElem?_eq_some]
        exact ⟨hilen, rfl⟩
      have hclass_bc : b64CharClass (blobW.get ⟨i, hilen⟩) =
          clsW.getD i 99 := by
        rw [← hcls, List.getD_eq_getElem?_getD, List.getElem?_map, hbc]
        rfl
      have hceq : c = blobW.get ⟨i, hilen⟩ := by
        apply b64CharClass_det
        · rw [heq]
          exact hlow i hi
        · rw [heq, hclass_bc]
      exact hne (hceq ▸ hbc)
    · exact hcore i hi (b64CharClass c) (b64CharClass_lt c) heq
  · have hcore4 := tamperCoreFinal
    have hbytes : b64decode blobW = bytesW := by decide
    intro c
    have hlift : b64decode (blobW.set 69 c) =
        b64decodeVals (classesToVals (clsW.set 69 (b64CharClass c))) := by
      unfold b64decode
      rw [b64Vals_eq_classes, List.map_set, hcls]
    rcases hcore4 (b64CharClass c) (b64CharClass_lt c) with hdec | hfail
    · left
      rw [hlift, hbytes]
      exact hdec
    · right
      show (verifyPayloadBytes hmacC (b64decode (blobW.set 69 c))).isOk = false
      rw [hlift]
      exact hfail

/-- C7 witness: the substitution at position 0 by `Q` is rejected. -/
theorem verifyToken_single_char_tamper_witness :
    (verifyToken hmacC (blobW.set 0 'Q')).isOk = false := by
  exact verifyToken_single_char_tamper.2.2.1 0 'Q' (by decide) (by decide)

end SecureMcpGateway

namespace SecureMcpGateway

/-! ## Round trip of the token signer (for C3) -/

theorem b64Value_b64Char {v : Nat} (hv : v < 64) :
    b64Value (b64Char v) = some v :=
  (by decide : ∀ w, w < 64 → b64Value (b64Char w) = some w) v hv

theorem b64Char_ne_pad {v : Nat} (hv : v < 64) : ¬ b64Char v = '=' :=
  (by decide : ∀ w, w < 64 → ¬ b64Char w = '=') v hv

theorem b64Vals_cons_val {v : Nat} (hv : v < 64) (rest : List Char) :
    b64Vals (b64Char v :: rest) = v :: b64Vals rest := by
  rw [b64Vals.eq_def]
  show (if b64Char v = '=' then [] else
      match b64Value (b64Char v) with
      | some w => w :: b64Vals rest
      | none => b64Vals rest) = v :: b64Vals rest
  rw [if_neg (b64Char_ne_pad hv), b64Value_b64Char hv]

theorem b64Vals_pad (rest : List Char) : b64Vals ('=' :: rest) = [] := by
  rw [b64Vals.eq_def]
  exact if_pos rfl

theorem b64_roundtrip (bytes : List Nat) (h : ∀ b ∈ bytes, b < 256) :
    b64decode (b64encodeBytes bytes) = bytes := by
  unfold b64decode
  induction bytes using b64encodeBytes.induct with
  | case1 =>
    rfl
  | case2 b1 =>
    have hb1 : b1 < 256 := h b1 (by simp)
    show b64decodeVals (b64Vals (b64encodeBytes [b1])) = [b1]
    unfold b64encodeBytes
    rw [b64Vals_cons_val (by omega), b64Vals_cons_val (by omega), b64Vals_pad]
    unfold b64decodeVals
    simp only [List.cons.injEq, and_true]
    omega
  | case3 b1 b2 =>
    have hb1 : b1 < 256 := h b1 (by simp)
    have hb2 : b2 < 256 := h b2 (by simp)
    show b64decodeVals (b64Vals (b64encodeBytes [b1, b2])) = [b1, b2]
    unfold b64encodeBytes
    rw [b64Vals_cons_val (by omega), b64Vals_cons_val (by omega),
      b64Vals_cons_val (by omega), b64Vals_pad]
    unfold b64decodeVals
    simp only [List.cons.injEq, and_true]
    constructor
    · omega
    · omega
  | case4 b1 b2 b3 rest ih =>
    have hb1 : b1 < 256 := h b1 (by simp)
    have hb2 : b2 < 256 := h b2 (by simp)
    have hb3 : b3 < 256 := h b3 (by simp)
    have hrest := ih (fun x hx => h x (by simp [hx]))
    show b64decodeVals (b64Vals (b64encodeBytes (b1 :: b2 :: b3 :: rest))) =
      b1 :: b2 :: b3 :: rest
    unfold b64encodeBytes
    rw [b64Vals_cons_val (by omega), b64Vals_cons_val (by omega),
      b64Vals_cons_val (by omega), b64Vals_cons_val (by omega)]
    unfold b64decodeVals
    simp only [List.cons.injEq]
    refine ⟨by omega, by omega, by omega, hrest⟩

theorem hexVal_hexDigitUpper {n : Nat} (hn : n < 16) :
    hexVal (hexDigitUpper n) = some n :=
  (by decide : ∀ m, m < 16 → hexVal (hexDigitUpper m) = some m) n hn

theorem uriUnreserved_ne_percent {c : Char} (h : uriUnreserved c = true) :
    ¬ c = '%' := by
  intro hc
  subst hc
  exact absurd h (by decide)

theorem decodeURI_cons {c : Char} (hc : ¬ c = '%') (rest : List Char) :
    decodeURIComponent (c :: rest) =
      (decodeURIComponent rest).map (fun l => c :: l) := by
  rw [decodeURIComponent.eq_def]
  exact if_neg hc

theorem decodeURI_escape {h1 h2 : Char} {a b : Nat}
    (hh1 : hexVal h1 = some a) (hh2 : hexVal h2 = some b)
    (rest : List Char) :
    decodeURIComponent ('%' :: h1 :: h2 :: rest) =
      (decodeURIComponent rest).map (fun l => Char.ofNat (a * 16 + b) :: l) := by
  rw [decodeURIComponent.eq_2, if_pos rfl]
  simp only [hh1, hh2]

theorem uri_roundtrip (s : List Char) (h : ∀ c ∈ s, c.toNat < 256) :
    decodeURIComponent (encodeURIComponent s) = some s := by
  induction s with
  | nil => rfl
  | cons c rest ih =>
    have hc : c.toNat < 256 := h c (by simp)
    have hrest := ih (fun x hx => h x (by simp [hx]))
    by_cases hu : uriUnreserved c
    · show decodeURIComponent
        ((if uriUnreserved c then [c]
          else ['%', hexDigitUpper (c.toNat / 16),
                hexDigitUpper (c.toNat % 16)]) ++ encodeURIComponent rest) =
        some (c :: rest)
      rw [if_pos hu]
      show decodeURIComponent (c :: encodeURIComponent rest) = some (c :: rest)
      rw [decodeURI_cons (uriUnreserved_ne_percent hu), hrest]
      rfl
    · show decodeURIComponent
        ((if uriUnreserved c then [c]
          else ['%', hexDigitUpper (c.toNat / 16),
                hexDigitUpper (c.toNat % 16)]) ++ encodeURIComponent rest) =
        some (c :: rest)
      rw [if_neg hu]
      show decodeURIComponent
        ('%' :: hexDigitUpper (c.toNat / 16) :: hexDigitUpper (c.toNat % 16) ::
          encodeURIComponent rest) = some (c :: rest)
      rw [decodeURI_escape (hexVal_hexDigitUpper (by omega))
        (hexVal_hexDigitUpper (by omega)), hrest]
      have hmod : c.toNat / 16 * 16 + c.toNat % 16 = c.toNat := by omega
      show some (Char.ofNat (c.toNat / 16 * 16 + c.toNat % 16) :: rest) =
        some (c :: rest)
      rw [hmod, Char.ofNat_toNat]


theorem psb_quote (r : List Nat) : parseStringBodyB (34 :: r) = some ([], r) := by
  rw [parseStringBodyB.eq_def]
  simp

theorem psb_esc34 {rest : List Nat} {sl r : List Nat}
    (h : parseStringBodyB rest = some (sl, r)) :
    parseStringBodyB (92 :: 34 :: rest) = some (34 :: sl, r) := by
  rw [parseStringBodyB.eq_def]
  simp [h, unescapeByte]

theorem psb_esc92 {rest : List Nat} {sl r : List Nat}
    (h : parseStringBodyB rest = some (sl, r)) :
    parseStringBodyB (92 :: 92 :: rest) = some (92 :: sl, r) := by
  rw [parseStringBodyB.eq_def]
  simp [h, unescapeByte]

theorem psb_plain {b : Nat} (hb : 32 <= b) (h34 : b ≠ 34) (h92 : b ≠ 92)
    {rest sl r : List Nat} (h : parseStringBodyB rest = some (sl, r)) :
    parseStringBodyB (b :: rest) = some (b :: sl, r) := by
  rw [parseStringBodyB.eq_def]
  simp [h, h34, h92, Nat.not_lt.mpr hb]

theorem jsonEscapeByte_plain {b : Nat} (hb : 32 <= b) (h34 : b ≠ 34)
    (h92 : b ≠ 92) : jsonEscapeByte b = [b] := by
  unfold jsonEscapeByte
  rw [if_neg h34, if_neg h92, if_neg (by omega), if_neg (by omega),
    if_neg (by omega), if_neg (by omega), if_neg (by omega),
    if_neg (by omega : ¬ b < 32)]

theorem parseStringBodyB_escaped (bs : List Nat) (h : ∀ b ∈ bs, 32 <= b)
    (r : List Nat) :
    parseStringBodyB (jsonEscapeBytes bs ++ 34 :: r) = some (bs, r) := by
  induction bs with
  | nil => exact psb_quote r
  | cons b rest ih =>
    have hb : 32 <= b := h b (by simp)
    have hrest := ih (fun x hx => h x (by simp [hx]))
    show parseStringBodyB ((jsonEscapeByte b ++ jsonEscapeBytes rest) ++ 34 :: r) =
      some (b :: rest, r)
    rw [List.append_assoc]
    by_cases h34 : b = 34
    · subst h34
      show parseStringBodyB (92 :: 34 :: (jsonEscapeBytes rest ++ 34 :: r)) =
        some (34 :: rest, r)
      exact psb_esc34 hrest
    · by_cases h92 : b = 92
      · subst h92
        show parseStringBodyB (92 :: 92 :: (jsonEscapeBytes rest ++ 34 :: r)) =
          some (92 :: rest, r)
        exact psb_esc92 hrest
      · rw [jsonEscapeByte_plain hb h34 h92]
        exact psb_plain hb h34 h92 hrest

theorem skipWsB_nws {b : Nat} (h : isWsB b = false) (rest : List Nat) :
    skipWsB (b :: rest) = b :: rest := by
  rw [skipWsB.eq_def]
  simp [h]

theorem skipWsB_nil : skipWsB [] = [] := rfl

theorem parseJStringB_escaped (bs : List Nat) (h : ∀ b ∈ bs, 32 <= b)
    (r : List Nat) :
    parseJStringB (34 :: (jsonEscapeBytes bs ++ 34 :: r)) = some (bs, r) := by
  show parseStringBodyB (jsonEscapeBytes bs ++ 34 :: r) = some (bs, r)
  exact parseStringBodyB_escaped bs h r

theorem expectByte_hit (b : Nat) (rest : List Nat) :
    expectByte b (b :: rest) = some rest := by
  show (if b = b then some rest else none) = some rest
  rw [if_pos rfl]

theorem parseMemberB_canonical (K V r : List Nat)
    (hK : jsonEscapeBytes K = K) (hK32 : ∀ b ∈ K, 32 <= b)
    (hV : ∀ b ∈ V, 32 <= b) :
    parseMemberB (34 :: (K ++ 34 :: 58 :: 34 :: (jsonEscapeBytes V ++ 34 :: r))) =
      some ((K, V), r) := by
  have h1 : parseJStringB
      (skipWsB (34 :: (K ++ 34 :: 58 :: 34 :: (jsonEscapeBytes V ++ 34 :: r)))) =
      some (K, 58 :: 34 :: (jsonEscapeBytes V ++ 34 :: r)) := by
    rw [skipWsB_nws (by decide)]
    conv_lhs => rw [← hK]
    exact parseJStringB_escaped K hK32 _
  have h2 : expectByte 58 (skipWsB (58 :: 34 :: (jsonEscapeBytes V ++ 34 :: r))) =
      some (34 :: (jsonEscapeBytes V ++ 34 :: r)) := by
    rw [skipWsB_nws (by decide)]
    exact expectByte_hit 58 _
  have h3 : parseJStringB (skipWsB (34 :: (jsonEscapeBytes V ++ 34 :: r))) =
      some (V, r) := by
    rw [skipWsB_nws (by decide)]
    exact parseJStringB_escaped V hV r
  simp only [parseMemberB, h1, h2, h3]

theorem jsonParse3B_canonical (K1 V1 K2 V2 K3 V3 : List Nat)
    (hK1 : jsonEscapeBytes K1 = K1) (h1w : ∀ b ∈ K1, 32 <= b)
    (hV1 : ∀ b ∈ V1, 32 <= b)
    (hK2 : jsonEscapeBytes K2 = K2) (h2w : ∀ b ∈ K2, 32 <= b)
    (hV2 : ∀ b ∈ V2, 32 <= b)
    (hK3 : jsonEscapeBytes K3 = K3) (h3w : ∀ b ∈ K3, 32 <= b)
    (hV3 : ∀ b ∈ V3, 32 <= b) :
    jsonParse3B
      (123 :: 34 :: (K1 ++ 34 :: 58 :: 34 :: (jsonEscapeBytes V1 ++ 34 :: 44 :: 34 ::
        (K2 ++ 34 :: 58 :: 34 :: (jsonEscapeBytes V2 ++ 34 :: 44 :: 34 ::
          (K3 ++ 34 :: 58 :: 34 :: (jsonEscapeBytes V3 ++ [34, 125]))))))) =
      some [(K1, V1), (K2, V2), (K3, V3)] := by
  have m3 : parseMemberB
      (34 :: (K3 ++ 34 :: 58 :: 34 :: (jsonEscapeBytes V3 ++ [34, 125]))) =
      some ((K3, V3), [125]) :=
    parseMemberB_canonical K3 V3 [125] hK3 h3w hV3
  have m2 : parseMemberB
      (34 :: (K2 ++ 34 :: 58 :: 34 :: (jsonEscapeBytes V2 ++ 34 :: 44 :: 34 ::
        (K3 ++ 34 :: 58 :: 34 :: (jsonEscapeBytes V3 ++ [34, 125]))))) =
      some ((K2, V2),
        44 :: 34 :: (K3 ++ 34 :: 58 :: 34 :: (jsonEscapeBytes V3 ++ [34, 125]))) :=
    parseMemberB_canonical K2 V2 _ hK2 h2w hV2
  have m1 : parseMemberB
      (34 :: (K1 ++ 34 :: 58 :: 34 :: (jsonEscapeBytes V1 ++ 34 :: 44 :: 34 ::
        (K2 ++ 34 :: 58 :: 34 :: (jsonEscapeBytes V2 ++ 34 :: 44 :: 34 ::
          (K3 ++ 34 :: 58 :: 34 :: (jsonEscapeBytes V3 ++ [34, 125]))))))) =
      some ((K1, V1),
        44 :: 34 :: (K2 ++ 34 :: 58 :: 34 :: (jsonEscapeBytes V2 ++ 34 :: 44 :: 34 ::
          (K3 ++ 34 :: 58 :: 34 :: (jsonEscapeBytes V3 ++ [34, 125]))))) :=
    parseMemberB_canonical K1 V1 _ hK1 h1w hV1
  simp only [jsonParse3B, skipWsB_nil,
    skipWsB_nws (by decide : isWsB 123 = false),
    skipWsB_nws (by decide : isWsB 44 = false),
    skipWsB_nws (by decide : isWsB 125 = false),
    expectByte_hit, m1, m2, m3]

theorem jsonParse3B_stringify (u t sig : List Char)
    (hu : ∀ b ∈ List.map Char.toNat u, 32 <= b)
    (ht : ∀ b ∈ List.map Char.toNat t, 32 <= b)
    (hs : ∀ b ∈ List.map Char.toNat sig, 32 <= b) :
    jsonParse3B (jsonStringifyBytes u t sig) =
      some [(keyUAKb, List.map Char.toNat u), (keyTokB, List.map Char.toNat t),
            (keySigB, List.map Char.toNat sig)] :=
  jsonParse3B_canonical keyUAKb _ keyTokB _ keySigB _
    (by decide) (by decide) hu (by decide) (by decide) ht
    (by decide) (by decide) hs

theorem lookupLast3_third (k1 v1 k2 v2 k3 v3 key : List Nat)
    (h3 : (k3 == key) = true) :
    lookupLastB [(k1, v1), (k2, v2), (k3, v3)] key = some v3 := by
  simp [lookupLastB, List.find?, h3]

theorem lookupLast3_second (k1 v1 k2 v2 k3 v3 key : List Nat)
    (h3 : (k3 == key) = false) (h2 : (k2 == key) = true) :
    lookupLastB [(k1, v1), (k2, v2), (k3, v3)] key = some v2 := by
  simp [lookupLastB, List.find?, h3, h2]

theorem lookupLast3_first (k1 v1 k2 v2 k3 v3 key : List Nat)
    (h3 : (k3 == key) = false) (h2 : (k2 == key) = false)
    (h1 : (k1 == key) = true) :
    lookupLastB [(k1, v1), (k2, v2), (k3, v3)] key = some v1 := by
  simp [lookupLastB, List.find?, h3, h2, h1]

theorem mapToNat_ofNat (s : List Char) :
    List.map Char.ofNat (List.map Char.toNat s) = s := by
  induction s with
  | nil => rfl
  | cons c r ih => simp [ih, Char.ofNat_toNat]

theorem jsonParsePayload_stringify (u t sig : List Char)
    (hu : ∀ c ∈ u, 32 <= c.toNat) (ht : ∀ c ∈ t, 32 <= c.toNat)
    (hs : ∀ c ∈ sig, 32 <= c.toNat) :
    jsonParsePayload (jsonStringifyBytes u t sig) =
      some (TokenPayload.mk u t (some sig)) := by
  have hU : ∀ b ∈ List.map Char.toNat u, 32 <= b := by
    intro b hb
    rcases List.mem_map.mp hb with ⟨c, hc, rfl⟩
    exact hu c hc
  have hT : ∀ b ∈ List.map Char.toNat t, 32 <= b := by
    intro b hb
    rcases List.mem_map.mp hb with ⟨c, hc, rfl⟩
    exact ht c hc
  have hS : ∀ b ∈ List.map Char.toNat sig, 32 <= b := by
    intro b hb
    rcases List.mem_map.mp hb with ⟨c, hc, rfl⟩
    exact hs c hc
  have hp := jsonParse3B_stringify u t sig hU hT hS
  simp only [jsonParsePayload, hp,
    lookupLast3_first keyUAKb _ keyTokB _ keySigB _ keyUAKb
      (by decide) (by decide) (by decide),
    lookupLast3_second keyUAKb _ keyTokB _ keySigB _ keyTokB
      (by decide) (by decide),
    lookupLast3_third keyUAKb _ keyTokB _ keySigB _ keySigB (by decide),
    Option.getD_some]
  simp [mapToNat_ofNat, Function.comp_def, Char.ofNat_toNat]

theorem jsonEscapeByte_lt {b : Nat} (hb : b < 256) :
    ∀ x ∈ jsonEscapeByte b, x < 256 := by
  intro x hx
  unfold jsonEscapeByte at hx
  split_ifs at hx with h1 h2 h3 h4 h5 h6 h7 h8
  · simp at hx; rcases hx with rfl | rfl <;> omega
  · simp at hx; rcases hx with rfl | rfl <;> omega
  · simp at hx; rcases hx with rfl | rfl <;> omega
  · simp at hx; rcases hx with rfl | rfl <;> omega
  · simp at hx; rcases hx with rfl | rfl <;> omega
  · simp at hx; rcases hx with rfl | rfl <;> omega
  · simp at hx; rcases hx with rfl | rfl <;> omega
  · simp [hexByteLower] at hx
    rcases hx with rfl | rfl | rfl | rfl | rfl | rfl
    all_goals first | omega | (split_ifs <;> omega)
  · simp at hx; omega

theorem jsonEscapeBytes_lt {bs : List Nat} (h : ∀ b ∈ bs, b < 256) :
    ∀ x ∈ jsonEscapeBytes bs, x < 256 := by
  induction bs with
  | nil => simp [jsonEscapeBytes]
  | cons b rest ih =>
    intro x hx
    simp only [jsonEscapeBytes, List.mem_append] at hx
    rcases hx with hx | hx
    · exact jsonEscapeByte_lt (h b (by simp)) x hx
    · exact ih (fun y hy => h y (by simp [hy])) x hx

theorem jsonStringifyBytes_lt (u t sig : List Char)
    (hu : ∀ c ∈ u, c.toNat < 256) (ht : ∀ c ∈ t, c.toNat < 256)
    (hs : ∀ c ∈ sig, c.toNat < 256) :
    ∀ x ∈ jsonStringifyBytes u t sig, x < 256 := by
  have hU : ∀ b ∈ List.map Char.toNat u, b < 256 := by
    intro b hb
    rcases List.mem_map.mp hb with ⟨c, hc, rfl⟩
    exact hu c hc
  have hT : ∀ b ∈ List.map Char.toNat t, b < 256 := by
    intro b hb
    rcases List.mem_map.mp hb with ⟨c, hc, rfl⟩
    exact ht c hc
  have hS : ∀ b ∈ List.map Char.toNat sig, b < 256 := by
    intro b hb
    rcases List.mem_map.mp hb with ⟨c, hc, rfl⟩
    exact hs c hc
  have eU := jsonEscapeBytes_lt hU
  have eT := jsonEscapeBytes_lt hT
  have eS := jsonEscapeBytes_lt hS
  have hk1 : ∀ x ∈ keyUAKb, x < 256 := by decide
  have hk2 : ∀ x ∈ keyTokB, x < 256 := by decide
  have hk3 : ∀ x ∈ keySigB, x < 256 := by decide
  simp only [jsonStringifyBytes, List.forall_mem_cons, List.forall_mem_append]
  repeat' apply And.intro
  all_goals
    first
      | omega
      | exact hk1
      | exact hk2
      | exact hk3
      | exact eU
      | exact eT
      | exact eS
      | simp

theorem b64Char_toNat_lt {v : Nat} (hv : v < 64) : (b64Char v).toNat < 256 :=
  (by decide : ∀ w, w < 64 → (b64Char w).toNat < 256) v hv

theorem b64encodeBytes_toNat_lt {bytes : List Nat} (h : ∀ b ∈ bytes, b < 256) :
    ∀ c ∈ b64encodeBytes bytes, c.toNat < 256 := by
  induction bytes using b64encodeBytes.induct with
  | case1 => simp [b64encodeBytes]
  | case2 b1 =>
    have hb1 := h b1 (by simp)
    intro c hc
    simp [b64encodeBytes] at hc
    rcases hc with rfl | rfl | rfl
    · exact b64Char_toNat_lt (by omega)
    · exact b64Char_toNat_lt (by omega)
    · decide
  | case3 b1 b2 =>
    have hb1 := h b1 (by simp)
    have hb2 := h b2 (by simp)
    intro c hc
    simp [b64encodeBytes] at hc
    rcases hc with rfl | rfl | rfl | rfl
    · exact b64Char_toNat_lt (by omega)
    · exact b64Char_toNat_lt (by omega)
    · exact b64Char_toNat_lt (by omega)
    · decide
  | case4 b1 b2 b3 rest ih =>
    have hb1 := h b1 (by simp)
    have hb2 := h b2 (by simp)
    have hb3 := h b3 (by simp)
    have hrest := ih (fun y hy => h y (by simp [hy]))
    intro c hc
    simp only [b64encodeBytes, List.mem_cons] at hc
    rcases hc with rfl | rfl | rfl | rfl | hc
    · exact b64Char_toNat_lt (by omega)
    · exact b64Char_toNat_lt (by omega)
    · exact b64Char_toNat_lt (by omega)
    · exact b64Char_toNat_lt (by omega)
    · exact hrest c hc

/-- C3 (amended): the signer and verifier compose only across an explicit
URL-decode.  For printable single-byte inputs, and an HMAC whose output is
printable, URL-decoding the signed token yields a base64 blob that
`verifyToken` accepts, returning exactly the signed `userAccessKey` and
`token` (plus the recomputed signature). -/
theorem signTokens_urldecode_roundtrip (hmac : List Char → List Char)
    (u t : List Char)
    (hu : ∀ c ∈ u, 32 <= c.toNat ∧ c.toNat < 256)
    (ht : ∀ c ∈ t, 32 <= c.toNat ∧ c.toNat < 256)
    (hs : ∀ c ∈ hmac (u ++ ':' :: t), 32 <= c.toNat ∧ c.toNat < 256) :
    ∃ blob, decodeURIComponent (signTokens hmac u t) = some blob ∧
      verifyToken hmac blob =
        Except.ok (TokenPayload.mk u t (some (hmac (u ++ ':' :: t)))) := by
  have hlt := jsonStringifyBytes_lt u t (hmac (u ++ ':' :: t))
    (fun c hc => (hu c hc).2) (fun c hc => (ht c hc).2)
    (fun c hc => (hs c hc).2)
  refine ⟨b64encodeBytes (jsonStringifyBytes u t (hmac (u ++ ':' :: t))), ?_, ?_⟩
  · show decodeURIComponent (encodeURIComponent
      (b64encodeBytes (jsonStringifyBytes u t (hmac (u ++ ':' :: t))))) = _
    exact uri_roundtrip _ (b64encodeBytes_toNat_lt hlt)
  · show verifyPayloadBytes hmac (b64decode
      (b64encodeBytes (jsonStringifyBytes u t (hmac (u ++ ':' :: t))))) = _
    rw [b64_roundtrip _ hlt]
    have hp := jsonParsePayload_stringify u t (hmac (u ++ ':' :: t))
      (fun c hc => (hu c hc).1) (fun c hc => (ht c hc).1)
      (fun c hc => (hs c hc).1)
    simp only [verifyPayloadBytes, hp]
    simp


/-- C3 counterexample: the composition claimed by the spec, `verifyToken`
applied directly to the `signTokens` output, rejects the signer's own
blob whenever URL-encoding introduced an escape: with empty names and the
43-character digest `hmacA`, the base64 text ends in padding, `signTokens`
ships it as `%3D%3D`, and the verifier (which never URL-decodes) parses
the mangled bytes and throws the format error. -/
theorem verifyToken_of_signTokens_invalid_format :
    verifyToken hmacA (signTokens hmacA [] []) =
      Except.error TokenError.invalidFormat := by decide

/-- C3 witness: the amended round trip at `u = ["u"]`, `t = ["t"]` under
the collision-free `hmacC`. -/
theorem signTokens_urldecode_roundtrip_witness :
    ∃ blob, decodeURIComponent (signTokens hmacC uW tW) = some blob ∧
      verifyToken hmacC blob =
        Except.ok (TokenPayload.mk uW tW (some (hmacC (uW ++ ':' :: tW)))) :=
  signTokens_urldecode_roundtrip hmacC uW tW (by decide) (by decide) (by decide)

end SecureMcpGateway
